import Mathlib

/-!
# Verification of the booking-deduplication / workout-assembly pipeline

This file is a shallow embedding, in Lean 4, of the core of the
`otf-api-ts` repository: the booking deduplication logic of
`BookingsApi` (`getBookingStatusPriority`, `safeTimestamp`,
`getBookingSortKey`, `deduplicateBookings`) and the workout-assembly
pipeline of `WorkoutsApi` (`getTelemetry`,
`enhanceHeartRateWithTelemetry`, `enhanceTelemetryWithTimestamps`,
`filterEquipmentData`, `convertMetricValuesToStrings`,
`formatDateToPythonISO`, `assembleWorkout`, `getWorkouts`, and the two
concurrent fan-out helpers).

Modelling conventions, used consistently below:

* A JavaScript date *string* field is represented by its parse result
  `Option JSDate`: `none` stands for an absent/`null`/empty-string
  (falsy) value, `some .invalid` for a truthy string that
  `new Date(...)` cannot parse (`getTime()` is `NaN`), and
  `some (.valid ms)` for a string parsing to epoch milliseconds `ms`.
* JavaScript numbers appearing in sort keys are represented by `JSNum`,
  which has `NaN`, `+Infinity` and `-Infinity` alongside finite
  rationals; `<` and `>` on `JSNum` are both false when `NaN` is
  involved, exactly as in JavaScript.
* `Array.prototype.sort(cmp)` is modelled by the stable
  `List.mergeSort` with `le a b := cmp a b ≤ 0`, and a comparator
  returning `NaN` is treated as returning `+0` (ECMAScript
  `SortCompare`).  ECMAScript only pins the result down for consistent
  comparators; a stable merge sort is a conforming implementation.
* JavaScript objects that the code probes with *both* camelCase and
  snake_case property names are modelled by structures carrying a field
  for every property name the code reads or writes; a property the
  producing code never sets is `none` (i.e. `undefined`).
-/

/-! ## JavaScript numbers and dates -/
/-- A JavaScript number as it occurs in the sort keys: `NaN`,
`+Infinity`, `-Infinity`, or a finite value (modelled as a rational;
all values actually produced are exact in this model). -/
inductive JSNum where
  | nan : JSNum
  | inf : JSNum
  | neginf : JSNum
  | fin : ℚ → JSNum
deriving DecidableEq, Repr

namespace JSNum

/-- JavaScript `<` on numbers: false whenever `NaN` is involved. -/
def ltb : JSNum → JSNum → Bool
  | nan, _ => false
  | _, nan => false
  | neginf, neginf => false
  | neginf, _ => true
  | _, neginf => false
  | inf, _ => false
  | fin _, inf => true
  | fin a, fin b => decide (a < b)

/-- JavaScript unary negation on numbers. -/
def negJ : JSNum → JSNum
  | nan => nan
  | inf => neginf
  | neginf => inf
  | fin q => fin (-q)

end JSNum

/-- The result of parsing a date string with `new Date(s)`:
either an invalid date (`getTime()` is `NaN`) or a valid one with an
epoch-millisecond value. -/
inductive JSDate where
  | invalid : JSDate
  | valid : Int → JSDate
deriving DecidableEq, Repr

/-! ## Booking data model

Mirrors the fields of the transformed `BookingV2` objects that the
deduplication and assembly code reads.  String-typed date fields are
represented by their parse results (see the conventions above). -/
/-- Booking status enumeration (`BookingStatus`); `other` covers any
string outside the fixed priority table. -/
inductive BookingStatus where
  | Booked | Confirmed | Waitlisted | Pending | Requested
  | CheckedIn | CheckinPending | CheckinRequested | CheckinCancelled
  | Cancelled | LateCancelled | CancelCheckinPending | CancelCheckinRequested
  | other : String → BookingStatus
deriving DecidableEq, Repr

/-- The coach value inside `otf_class`: either a plain string or an
object with first/last name fields in either naming convention
(`none` = absent or empty string, both falsy). -/
inductive CoachV where
  | str : String → CoachV
  | obj : (first_name : Option String) → (last_name : Option String) →
          (firstName : Option String) → (lastName : Option String) → CoachV
deriving DecidableEq, Repr

/-- The embedded class snapshot (`BookingV2Class`) fields read by the
pipeline.  `class_id` keeps a possible empty string (falsy in JS);
`starts_at` is a date-string parse result. -/
structure BClass where
  class_uuid : Option String
  name : String
  starts_at : Option JSDate
  coach : Option CoachV
  studio : Option String
  class_id : Option String
deriving DecidableEq, Repr

/-- The embedded workout reference on a booking. -/
structure WorkoutRef where
  performance_summary_id : String
  active_time_seconds : Option ℚ
deriving DecidableEq, Repr

/-- A transformed `BookingV2` record (the fields the deduplicator and
the workout pipeline read). -/
structure BookingV2 where
  booking_id : String
  status : BookingStatus
  ratable : Bool
  class_rating : Option String
  coach_rating : Option String
  otf_class : Option BClass
  workout : Option WorkoutRef
  created_at : Option JSDate
  updated_at : Option JSDate
deriving DecidableEq, Repr

/-! ## Sort-Key Evaluator -/
/-- `getBookingStatusPriority`: priority table from the source, with
`999` for unknown statuses. -/
def getBookingStatusPriority : BookingStatus → ℚ
  | .Booked => 0
  | .Confirmed => 1
  | .Waitlisted => 2
  | .Pending => 3
  | .Requested => 4
  | .CheckedIn => 5
  | .CheckinPending => 6
  | .CheckinRequested => 7
  | .CheckinCancelled => 8
  | .Cancelled => 9
  | .LateCancelled => 10
  | .CancelCheckinPending => 11
  | .CancelCheckinRequested => 12
  | .other _ => 999

/-- `safeTimestamp`: `Infinity` for an absent, unparsable or
epoch-zero date string, otherwise epoch seconds (`getTime() / 1000`). -/
def safeTimestamp : Option JSDate → JSNum
  | none => .inf
  | some .invalid => .inf
  | some (.valid ms) =>
      if ms = 0 then .inf else .fin (Rat.divInt ms 1000)

/-- The 4-tuple sort key of `getBookingSortKey`:
`[startsAt, -safeTimestamp(updated_at), -safeTimestamp(created_at), statusPriority]`.
`startsAt` is `0` when `otf_class?.starts_at` is falsy and `NaN` when
it is truthy but unparsable. -/
def getBookingSortKey (b : BookingV2) : JSNum × JSNum × JSNum × JSNum :=
  let startsAt : JSNum :=
    match b.otf_class with
    | some c =>
        match c.starts_at with
        | some (.valid ms) => .fin (Rat.divInt ms 1000)
        | some .invalid => .nan
        | none => .fin 0
    | none => .fin 0
  (startsAt,
   (safeTimestamp b.updated_at).negJ,
   (safeTimestamp b.created_at).negJ,
   .fin (getBookingStatusPriority b.status))

/-- One step of the tuple comparator: `-1` if `x < y`, `1` if `x > y`
(JS `>` is `<` flipped), else `0`; both comparisons are false on `NaN`. -/
def cmpComp (x y : JSNum) : Int :=
  if x.ltb y then -1 else if y.ltb x then 1 else 0

/-- The comparator used inside `deduplicateBookings` to sort one class
group: lexicographic comparison of the two sort keys. -/
def cmpSortKey (a b : BookingV2) : Int :=
  let ka := getBookingSortKey a
  let kb := getBookingSortKey b
  let c0 := cmpComp ka.1 kb.1
  if c0 ≠ 0 then c0 else
  let c1 := cmpComp ka.2.1 kb.2.1
  if c1 ≠ 0 then c1 else
  let c2 := cmpComp ka.2.2.1 kb.2.2.1
  if c2 ≠ 0 then c2 else
  cmpComp ka.2.2.2 kb.2.2.2

/-- `Array.prototype.sort` order for the group comparator. -/
def leSortKey (a b : BookingV2) : Bool := decide (cmpSortKey a b ≤ 0)

/-! ## A computable model of `Array.prototype.sort`

`List.mergeSort` is defined by well-founded recursion, which does not
reduce inside the kernel; the pipeline below therefore uses a
fuel-indexed merge sort `jsArraySort` that is definitionally
computable, and we prove once and for all that it coincides with
`List.mergeSort`.  Both are stable merge sorts, i.e. conforming
implementations of `Array.prototype.sort`. -/
/-- Fuelled version of `List.merge`. -/
def jsMerge (le : α → α → Bool) : Nat → List α → List α → List α
  | 0, xs, ys => xs ++ ys
  | _ + 1, [], ys => ys
  | _ + 1, x :: xs, [] => x :: xs
  | fuel + 1, x :: xs, y :: ys =>
      if le x y then x :: jsMerge le fuel xs (y :: ys)
      else y :: jsMerge le fuel (x :: xs) ys

/-- Fuelled version of `List.mergeSort`. -/
def jsSortGo (le : α → α → Bool) : Nat → List α → List α
  | 0, l => l
  | _ + 1, [] => []
  | _ + 1, [a] => [a]
  | fuel + 1, a :: b :: xs =>
      let l := a :: b :: xs
      let l₁ := l.take ((l.length + 1) / 2)
      let l₂ := l.drop ((l.length + 1) / 2)
      jsMerge le l.length (jsSortGo le fuel l₁) (jsSortGo le fuel l₂)

/-- The model of `Array.prototype.sort(cmp)` (with `le a b` meaning
`cmp(a, b) ≤ 0`): a stable merge sort, computable by kernel
reduction. -/
def jsArraySort (l : List α) (le : α → α → Bool) : List α :=
  jsSortGo le l.length l

/-! ## Deduplicator -/
/-- The (truthy) `otf_class?.class_id` of a booking, or `none` when the
grouping loop would `continue` past it. -/
def classIdOf (b : BookingV2) : Option String :=
  match b.otf_class with
  | none => none
  | some c =>
      match c.class_id with
      | none => none
      | some s => if s = "" then none else some s

/-- Append a booking to its group in an insertion-ordered association
list (the model of the `Map<string, BookingV2[]>`). -/
def addToGroup (key : String) (b : BookingV2) :
    List (String × List BookingV2) → List (String × List BookingV2)
  | [] => [(key, [b])]
  | (k, g) :: rest =>
      if k = key then (k, g ++ [b]) :: rest
      else (k, g) :: addToGroup key b rest

/-- The grouping loop of `deduplicateBookings`: bookings without a
truthy `class_id` are skipped (`continue`), the rest are grouped by
`class_id` in insertion order. -/
def groupByClassId (bookings : List BookingV2) : List (String × List BookingV2) :=
  bookings.foldl
    (fun gs b =>
      match classIdOf b with
      | none => gs
      | some k => addToGroup k b gs)
    []

/-- Per-group selection: a singleton group is kept as is, a larger
group is sorted by the sort-key comparator and its first element kept. -/
def keepBest : List BookingV2 → List BookingV2
  | [] => []
  | [b] => [b]
  | a :: b :: rest =>
      match jsArraySort (a :: b :: rest) leSortKey with
      | [] => []
      | best :: _ => [best]

/-- `booking.otf_class?.starts_at` as used by the final sort (`none`
when `otf_class` is absent or `starts_at` falsy). -/
def startsField (b : BookingV2) : Option JSDate :=
  match b.otf_class with
  | none => none
  | some c => c.starts_at

/-- The final comparator of `deduplicateBookings`: missing start time
sorts last; otherwise `getTime()` difference, with a `NaN` difference
treated as `+0` by `SortCompare`. -/
def cmpStarts (a b : BookingV2) : Int :=
  match startsField a, startsField b with
  | none, none => 0
  | none, some _ => 1
  | some _, none => -1
  | some x, some y =>
      match x, y with
      | .valid ta, .valid tb => ta - tb
      | _, _ => 0

/-- `Array.prototype.sort` order for the final starts-at comparator. -/
def leStarts (a b : BookingV2) : Bool := decide (cmpStarts a b ≤ 0)

/-- `deduplicateBookings`: group by class id (dropping bookings with no
truthy class id), keep the best booking per group, then sort by class
start time. -/
def deduplicateBookings (bookings : List BookingV2) : List BookingV2 :=
  let groups := groupByClassId bookings
  let keepBookings := (groups.map (fun p => keepBest p.2)).flatten
  jsArraySort keepBookings leStarts

/-! ## Auxiliary order used in proofs about the final sort

`leStarts` is not transitive when an unparsable (`NaN`) start time is
involved (`SortCompare` treats a `NaN` comparator result as a tie).
On bookings whose start time is absent or parseable it agrees with the
following total preorder, which is what the idempotence analysis
uses. -/
/-- The first component of the sort key as a function of the
`starts_at` parse result. -/
def startsNum : Option JSDate → JSNum
  | some (.valid ms) => .fin (Rat.divInt ms 1000)
  | some .invalid => .nan
  | none => .fin 0

/-- The epoch milliseconds of a booking's class start, `none` when the
start time is absent or unparsable. -/
def startsVal (b : BookingV2) : Option Int :=
  match startsField b with
  | some (.valid ms) => some ms
  | _ => none

/-- Total, transitive companion of `leStarts`: orders by start
milliseconds with absent sorting last. -/
def leStartsT (a b : BookingV2) : Bool :=
  match startsVal a, startsVal b with
  | none, none => true
  | none, some _ => false
  | some _, none => true
  | some x, some y => decide (x ≤ y)

/-- A booking whose class start time is not an unparsable (truthy but
invalid) date string.  The final sort comparator of
`deduplicateBookings` is only consistent on such bookings. -/
def ParseableStart (b : BookingV2) : Prop := startsField b ≠ some .invalid

instance (b : BookingV2) : Decidable (ParseableStart b) := by
  unfold ParseableStart; infer_instance

/-! ## Concrete bookings used in counterexamples and witnesses -/
/-- Builder for concrete bookings: identifier, class id, start time,
created/updated timestamps; `Booked` status. -/
def mkBooking (id : String) (cid : Option String) (st : Option JSDate)
    (cr up : Option JSDate) : BookingV2 :=
  { booking_id := id, status := .Booked, ratable := false,
    class_rating := none, coach_rating := none,
    otf_class := some { class_uuid := none, name := "Orange 60", starts_at := st,
                        coach := none, studio := none, class_id := cid },
    workout := none, created_at := cr, updated_at := up }

/-- C1 counterexample: a booking with a valid `updated_at`. -/
def c1good : BookingV2 :=
  mkBooking "good" (some "class-123") (some (.valid 1705312800000))
    (some (.valid 1704100000000)) (some (.valid 1704100000000))

/-- C1 counterexample: same class, status and start time, but
`updated_at` absent (`safeTimestamp` is `Infinity`). -/
def c1bad : BookingV2 :=
  { c1good with booking_id := "bad", updated_at := none }

/-- C1 witness bookings: valid vs unparsable `updated_at`. -/
def c1wGood : BookingV2 :=
  mkBooking "w-good" (some "class-7") (some (.valid 2000000)) none
    (some (.valid 1000000))

def c1wBad : BookingV2 :=
  { c1wGood with booking_id := "w-bad", updated_at := some .invalid }

/-- C2 counterexample: a booking with no embedded class at all
(`otf_class` is `null`), hence no class identity. -/
def c2orphan : BookingV2 :=
  { booking_id := "orphan", status := .Confirmed, ratable := false,
    class_rating := none, coach_rating := none, otf_class := none,
    workout := none, created_at := none, updated_at := none }

/-- C2 witness: an ordinary booking with a class id. -/
def c2kept : BookingV2 :=
  mkBooking "kept" (some "class-9") (some (.valid 1000)) none none

/-- C9 counterexample: six bookings with six distinct class ids, one of
them with an unparsable class start time (`NaN` in the comparator).
Start values: 1ms, 0ms, 0ms, 0ms, unparsable, 0ms. -/
def x9 : List BookingV2 :=
  [ mkBooking "b1" (some "c1") (some (.valid 1)) none none,
    mkBooking "b2" (some "c2") (some (.valid 0)) none none,
    mkBooking "b3" (some "c3") (some (.valid 0)) none none,
    mkBooking "b4" (some "c4") (some (.valid 0)) none none,
    mkBooking "b5" (some "c5") (some .invalid) none none,
    mkBooking "b6" (some "c6") (some (.valid 0)) none none ]

/-- C9 witness: a list with parseable (or absent) start times only. -/
def w9 : List BookingV2 :=
  [ mkBooking "w1" (some "c1") (some (.valid 5000)) none none,
    mkBooking "w2" (some "c2") (some (.valid 1000)) none none,
    mkBooking "w3" none none none none,
    mkBooking "w4" (some "c2") (some (.valid 1000)) none (some (.valid 7000)) ]

/-! ## JavaScript truthiness helpers for optional values -/
/-- Truthiness of an optional JS number (`0` and absent are falsy;
the model has no `NaN` here). -/
def numTruthy : Option ℚ → Bool
  | some x => decide (x ≠ 0)
  | none => false

/-- Truthiness of an optional JS string (empty and absent are falsy). -/
def strTruthy : Option String → Bool
  | some s => decide (s ≠ "")
  | none => false

/-- JavaScript `a || b` on optional numbers. -/
def jsOrNum (a b : Option ℚ) : Option ℚ :=
  if numTruthy a then a else b

/-- JavaScript `a || b` on optional strings. -/
def jsOrStr (a b : Option String) : Option String :=
  if strTruthy a then a else b

/-! ## Date formatting: `toISOString` and `formatDateToPythonISO`

`Date.prototype.toISOString` is modelled on epoch milliseconds using
the standard civil-from-days calendar algorithm; the year is printed
with four digits for years 0–9999 and in the ECMAScript expanded form
(`±YYYYYY`) outside that range.  `toISOString` throws a `RangeError`
for an invalid date or a time value beyond ±8.64e15 ms, modelled as
`none`. -/
/-- Two-digit zero-padded decimal. -/
def pad2 (n : Nat) : List Char := [Nat.digitChar (n / 10), Nat.digitChar (n % 10)]

/-- Three-digit zero-padded decimal (milliseconds). -/
def pad3 (n : Nat) : List Char :=
  [Nat.digitChar (n / 100), Nat.digitChar ((n / 10) % 10), Nat.digitChar (n % 10)]

/-- Four-digit zero-padded decimal (years 0–9999). -/
def pad4 (n : Nat) : List Char :=
  [Nat.digitChar (n / 1000), Nat.digitChar ((n / 100) % 10),
   Nat.digitChar ((n / 10) % 10), Nat.digitChar (n % 10)]

/-- Six-digit zero-padded decimal (ECMAScript expanded years). -/
def pad6 (n : Nat) : List Char :=
  [Nat.digitChar (n / 100000), Nat.digitChar ((n / 10000) % 10),
   Nat.digitChar ((n / 1000) % 10), Nat.digitChar ((n / 100) % 10),
   Nat.digitChar ((n / 10) % 10), Nat.digitChar (n % 10)]

/-- Proleptic-Gregorian date (year, month, day) of a day count since
1970-01-01 (the standard civil-from-days algorithm, floor division). -/
def civilFromDays (z : Int) : Int × Nat × Nat :=
  let z' := z + 719468
  let era : Int := z' / 146097
  let doe : Nat := (z' - era * 146097).toNat
  let yoe : Nat := (doe - doe / 1460 + doe / 36524 - doe / 146096) / 365
  let doy : Nat := doe - (365 * yoe + yoe / 4 - yoe / 100)
  let mp : Nat := (5 * doy + 2) / 153
  let d : Nat := doy - (153 * mp + 2) / 5 + 1
  let m : Nat := if mp < 10 then mp + 3 else mp - 9
  ((yoe : Int) + era * 400 + (if m ≤ 2 then 1 else 0), m, d)

/-- The character sequence produced by `toISOString` for a finite time
value `t` (epoch milliseconds). -/
def toISOStringChars (t : Int) : List Char :=
  let days := t / 86400000
  let msod := (t % 86400000).toNat
  let c := civilFromDays days
  let y := c.1
  let m := c.2.1
  let d := c.2.2
  let yearPart : List Char :=
    if 0 ≤ y ∧ y ≤ 9999 then pad4 y.toNat
    else if y < 0 then '-' :: pad6 (-y).toNat
    else '+' :: pad6 y.toNat
  yearPart ++ '-' :: (pad2 m ++ '-' :: (pad2 d ++ 'T' ::
    (pad2 (msod / 3600000) ++ ':' :: (pad2 ((msod / 60000) % 60) ++ ':' ::
    (pad2 ((msod / 1000) % 60) ++ '.' :: (pad3 (msod % 1000) ++ ['Z']))))))

/-- `Date.prototype.toISOString`: `none` models the thrown
`RangeError` (invalid date, or time value beyond ±8.64e15 ms). -/
def jsToISOString : JSDate → Option String
  | .invalid => none
  | .valid t =>
      if t.natAbs ≤ 8640000000000000 then some (String.mk (toISOStringChars t))
      else none

/-- The regex replacement `.replace(/\.\d{3}Z$/, '+00:00')`: if the
string ends in a dot, three digits and `Z`, that suffix is replaced by
`+00:00`; otherwise the string is unchanged. -/
def replaceMsZ (s : String) : String :=
  let cs := s.data
  let n := cs.length
  match cs.drop (n - 5) with
  | [p, d1, d2, d3, z] =>
      if p = '.' && d1.isDigit && d2.isDigit && d3.isDigit && z = 'Z'
      then String.mk (cs.take (n - 5) ++ ('+' :: '0' :: '0' :: ':' :: '0' :: '0' :: []))
      else s
  | _ => s

/-- `formatDateToPythonISO`: `toISOString` followed by the
milliseconds-and-`Z` replacement; `none` models the `RangeError`. -/
def formatDateToPythonISO (d : JSDate) : Option String :=
  (jsToISOString d).map replaceMsZ

/-- The Python-parity format applied to a finite time value. -/
def pythonISOofMs (t : Int) : String :=
  replaceMsZ (String.mk (toISOStringChars t))

/-- The pattern `YYYY-MM-DDTHH:mm:ss+00:00` of the specification: 25
characters, digits at the date/time positions, literal separators, an
explicit `+00:00` suffix, no `Z`, no sub-second part. -/
def matchesPythonISO (s : String) : Bool :=
  match s.data with
  | [y1, y2, y3, y4, a1, mo1, mo2, a2, d1, d2, a3,
     h1, h2, a4, mi1, mi2, a5, s1, s2, p1, p2, p3, p4, p5, p6] =>
      y1.isDigit && y2.isDigit && y3.isDigit && y4.isDigit && a1 = '-' &&
      mo1.isDigit && mo2.isDigit && a2 = '-' && d1.isDigit && d2.isDigit && a3 = 'T' &&
      h1.isDigit && h2.isDigit && a4 = ':' && mi1.isDigit && mi2.isDigit && a5 = ':' &&
      s1.isDigit && s2.isDigit &&
      p1 = '+' && p2 = '0' && p3 = '0' && p4 = ':' && p5 = '0' && p6 = '0'
  | _ => false

/-! ## Telemetry model

The object returned by `getTelemetry` carries snake_case properties
only; the enhancement helpers probe camelCase properties
(`maxHr`, `classHistoryUuid`, ...), so the structure carries a field
for each property name that any embedded function reads or writes.
The `Array.isArray(telemetry)` branches of
`enhanceTelemetryWithTimestamps` are not modelled: both pipeline call
sites pass the object produced by `getTelemetry` (or `null`), never a
bare array. -/
/-- One telemetry sample.  `getTelemetry` adds the snake_case aliases;
`enhanceTelemetryWithTimestamps` adds `timestamp`. -/
structure TelemetrySample where
  relative_timestamp : Option Int
  timestamp : Option String
  createdAt : Option String
  created_at : Option String
  heartRate : Option ℚ
  heart_rate : Option ℚ
  zone : Option String
deriving DecidableEq, Repr

/-- A heart-rate zone as delivered by the API (either spelling may be
present). -/
structure ZoneIn where
  startBpm : Option ℚ
  start_bpm : Option ℚ
  endBpm : Option ℚ
  end_bpm : Option ℚ
deriving DecidableEq, Repr

/-- A heart-rate zone after `transformZonesToSnakeCase`. -/
structure ZoneOut where
  start_bpm : Option ℚ
  end_bpm : Option ℚ
deriving DecidableEq, Repr

/-- `transformZonesToSnakeCase`: keeps entries whose value is a truthy
object, picking `startBpm || start_bpm` and `endBpm || end_bpm`. -/
def transformZonesToSnakeCase (zones : List (String × Option ZoneIn)) :
    List (String × ZoneOut) :=
  zones.filterMap fun p =>
    p.2.map fun z =>
      (p.1, { start_bpm := jsOrNum z.startBpm z.start_bpm,
              end_bpm := jsOrNum z.endBpm z.end_bpm })

/-- The telemetry object: snake_case fields are the ones `getTelemetry`
writes; the trailing camelCase fields are the properties probed by the
enhancement helpers (never set by `getTelemetry`, i.e. `undefined`
there). -/
structure Telemetry where
  class_history_uuid : Option String
  class_start_time : Option String
  max_hr : Option ℚ
  member_uuid : Option String
  performance_summary_id : Option String
  window_size : Option ℚ
  zones : Option (List (String × ZoneOut))
  telemetry : Option (List TelemetrySample)
  classHistoryUuid : Option String
  classStartTime : Option String
  maxHr : Option ℚ
  memberUuid : Option String
deriving DecidableEq, Repr

/-- The remote response consumed by `getTelemetry` (camelCase wire
format, plus the `window_size` alternative the code probes). -/
structure TelemetryResponse where
  classHistoryUuid : Option String
  classStartTime : Option String
  maxHr : Option ℚ
  memberUuid : Option String
  windowSize : Option ℚ
  window_size : Option ℚ
  zones : Option (List (String × Option ZoneIn))
  telemetry : Option (List TelemetrySample)
deriving DecidableEq, Repr

/-- `WorkoutsApi.getTelemetry`: `null` when the response or its
`telemetry` array is missing; otherwise the snake_case object built
from the response.  Note that every camelCase output field is
`undefined`. -/
def getTelemetry (memberUuid performanceSummaryId : String)
    (response : Option TelemetryResponse) : Option Telemetry :=
  match response with
  | none => none
  | some r =>
      match r.telemetry with
      | none => none
      | some items =>
          let telemetryData := items.map fun item =>
            { item with created_at := item.createdAt,
                        heart_rate := item.heartRate,
                        zone := item.zone }
          let zones :=
            match r.zones with
            | some zs => some (transformZonesToSnakeCase zs)
            | none => none
          some
            { class_history_uuid := jsOrStr r.classHistoryUuid (some performanceSummaryId),
              class_start_time := jsOrStr r.classStartTime none,
              max_hr := jsOrNum r.maxHr (some 0),
              member_uuid := jsOrStr r.memberUuid (some memberUuid),
              performance_summary_id := jsOrStr r.classHistoryUuid (some performanceSummaryId),
              window_size := jsOrNum r.windowSize (jsOrNum r.window_size none),
              zones := zones,
              telemetry := some telemetryData,
              classHistoryUuid := none,
              classStartTime := none,
              maxHr := none,
              memberUuid := none }

/-! ## Heart-rate correction -/
/-- The heart-rate block of a performance summary. -/
structure HeartRate where
  max_hr : Option ℚ
  peak_hr : Option ℚ
  peak_hr_percent : Option ℚ
  avg_hr : Option ℚ
  avg_hr_percent : Option ℚ
deriving DecidableEq, Repr

/-- `enhanceHeartRateWithTelemetry`: copies the heart-rate block and
overwrites `max_hr` with `telemetry.maxHr` when that (camelCase)
property is truthy. -/
def enhanceHeartRateWithTelemetry (heartRate : Option HeartRate)
    (telemetry : Option Telemetry) : Option HeartRate :=
  match heartRate with
  | none => none
  | some h =>
      match telemetry with
      | some t =>
          if numTruthy t.maxHr then some { h with max_hr := t.maxHr }
          else some h
      | none => some h

/-! ## Telemetry timestamp enhancement -/
/-- Enhancement of one telemetry sample: items without a
`relative_timestamp` pass through; otherwise the absolute timestamp
`classStart.getTime() + relative_timestamp * 1000` is formatted, with
`none` modelling the `RangeError` thrown by `toISOString` on an
invalid or out-of-range date. -/
def enhanceTelemetryItem (classStart : JSDate) (item : TelemetrySample) :
    Option TelemetrySample :=
  match item.relative_timestamp with
  | none => some item
  | some rel =>
      match classStart with
      | .invalid => none
      | .valid ms =>
          match formatDateToPythonISO (.valid (ms + rel * 1000)) with
          | none => none
          | some ts => some { item with timestamp := some ts }

/-- `enhanceTelemetryWithTimestamps` on the object shape produced by
`getTelemetry`: pass-through when the telemetry or the class start
time is falsy or the `telemetry` array is missing; otherwise each
sample gets an absolute timestamp.  The camelCase rebuild branch fires
only when the input object carries a truthy `classHistoryUuid`
property.  The outer `Option` models a thrown `RangeError`. -/
def enhanceTelemetryWithTimestamps (telemetry : Option Telemetry)
    (classStartTime : Option JSDate) : Option (Option Telemetry) :=
  match telemetry with
  | none => some none
  | some t =>
      match classStartTime with
      | none => some (some t)
      | some cst =>
          match t.telemetry with
          | none => some (some t)
          | some items =>
              match items.mapM (enhanceTelemetryItem cst) with
              | none => none
              | some enhanced =>
                  if strTruthy t.classHistoryUuid then
                    some (some
                      { class_history_uuid := t.classHistoryUuid,
                        class_start_time := t.classStartTime,
                        max_hr := t.maxHr,
                        member_uuid := t.memberUuid,
                        performance_summary_id := t.classHistoryUuid,
                        window_size := none,
                        zones := none,
                        telemetry := some enhanced,
                        classHistoryUuid := none,
                        classStartTime := none,
                        maxHr := none,
                        memberUuid := none })
                  else
                    some (some { t with telemetry := some enhanced })

/-- C6 telemetry example sample used by the counterexample. -/
def c6item : TelemetrySample :=
  { relative_timestamp := some 100, timestamp := none, createdAt := none,
    created_at := none, heartRate := none, heart_rate := none, zone := none }

/-- C6 telemetry object (shape produced by `getTelemetry`) holding
`c6item`. -/
def c6tel : Telemetry :=
  { class_history_uuid := some "perf-1", class_start_time := none,
    max_hr := some 180, member_uuid := some "m-1",
    performance_summary_id := some "perf-1", window_size := none,
    zones := none, telemetry := some [c6item],
    classHistoryUuid := none, classStartTime := none, maxHr := none,
    memberUuid := none }

/-- C6 witness sample (`relative_timestamp` 300 s). -/
def c6wItem : TelemetrySample :=
  { relative_timestamp := some 300, timestamp := none, createdAt := none,
    created_at := none, heartRate := some 165, heart_rate := some 165,
    zone := none }

/-- C5 remote response: telemetry with an observed maximum heart rate
of 195 (camelCase wire field `maxHr`). -/
def c5resp : TelemetryResponse :=
  { classHistoryUuid := some "perf-5", classStartTime := none,
    maxHr := some 195, memberUuid := some "m-5", windowSize := some 24,
    window_size := none, zones := none, telemetry := some [] }

/-- C5 heart-rate block with `max_hr` absent. -/
def c5hr : HeartRate :=
  { max_hr := none, peak_hr := some 185, peak_hr_percent := some 95,
    avg_hr := some 150, avg_hr_percent := some 75 }

/-- C5 output of `getTelemetry` on the concrete response. -/
def c5out : Telemetry :=
  { class_history_uuid := some "perf-5", class_start_time := none,
    max_hr := some 195, member_uuid := some "m-5",
    performance_summary_id := some "perf-5", window_size := some 24,
    zones := none, telemetry := some [],
    classHistoryUuid := none, classStartTime := none, maxHr := none,
    memberUuid := none }

/-! ## Equipment data: JSON trees and `convertMetricValuesToStrings`

Equipment data (`rower`/`treadmill`) is an arbitrary JSON object tree.
`JVal` is the value tree (mutually inductive with field lists and
element lists so that all recursion is structural); numbers are finite
rationals, as `JSON.parse` can produce neither `NaN` nor infinities. -/
mutual
/-- A JSON value. -/
inductive JVal where
  | num : ℚ → JVal
  | str : String → JVal
  | bool : Bool → JVal
  | nul : JVal
  | obj : JFields → JVal
  | arr : JArr → JVal
deriving DecidableEq, Repr
/-- The ordered field list of a JSON object. -/
inductive JFields where
  | nil : JFields
  | fcons : String → JVal → JFields → JFields
deriving DecidableEq, Repr
/-- The element list of a JSON array. -/
inductive JArr where
  | nil : JArr
  | acons : JVal → JArr → JArr
deriving DecidableEq, Repr
end

/-- JavaScript truthiness of a `JVal` (`0`, `""`, `false`, `null` are
falsy; every object and array is truthy). -/
def jvalFalsy : JVal → Bool
  | .num q => decide (q = 0)
  | .str s => decide (s = "")
  | .bool b => !b
  | .nul => true
  | .obj _ => false
  | .arr _ => false

/-- Removal of a top-level key (`delete filtered.max_power`). -/
def removeKey (k : String) : JFields → JFields
  | .nil => .nil
  | .fcons k' v rest =>
      if k' = k then removeKey k rest else .fcons k' v (removeKey k rest)

/-- The `delete` statement on a value (a no-op on non-objects). -/
def deleteKey (k : String) : JVal → JVal
  | .obj fs => .obj (removeKey k fs)
  | v => v

/-! ## `Number.prototype.toString` for terminating decimals

The numbers reaching `convertMetricValuesToStrings` come from JSON, so
the model covers exactly the rationals with a terminating decimal
expansion (denominator dividing a power of ten); for them the
ECMAScript `Number::toString(10)` algorithm is implemented literally:
the value is written as `S · 10^(n-k)` with `S` the shortest digit
string (`k` digits, no trailing zero) and the positional or exponential
form is chosen from `n` exactly as in the standard. -/
/-- Smallest `e ≤ 40` with `den ∣ 10 ^ e` (`none` for a
non-terminating denominator, which no JSON double produces). -/
def expOf (den : Nat) : Option Nat :=
  (List.range 41).find? fun e => 10 ^ e % den == 0

/-- Factors all powers of ten out of `m`: returns `(S, z)` with
`m = S * 10 ^ z` and `S` not divisible by ten (fuel-bounded). -/
def strip10 : Nat → Nat → Nat × Nat
  | 0, m => (m, 0)
  | fuel+1, m =>
      if m % 10 = 0 ∧ m ≠ 0 then
        let p := strip10 fuel (m / 10)
        (p.1, p.2 + 1)
      else (m, 0)

/-- Decimal digit characters of `n`, most significant first
(fuel-bounded structural recursion). -/
def natDigitsAux : Nat → Nat → List Char
  | 0, _ => []
  | fuel+1, n => if n < 10 then [Nat.digitChar n]
                 else natDigitsAux fuel (n / 10) ++ [Nat.digitChar (n % 10)]

/-- Decimal digit characters of `n`, most significant first. -/
def natDigits (n : Nat) : List Char := natDigitsAux (n + 1) n

/-- Character sequence of `Number::toString(10)` for the positive value
`M / 10 ^ e` (`M ≥ 1`): the four cases of the ECMAScript algorithm
(integer, internal point, leading zeros, exponential). -/
def jsNumCoreBody (M e : Nat) : List Char :=
  let p := strip10 100 M
  let digits := natDigits p.1
  let k := digits.length
  let n : Int := (k : Int) + p.2 - e
  if (k : Int) ≤ n ∧ n ≤ 21 then
    digits ++ List.replicate (n - k).toNat '0'
  else if 0 < n ∧ n ≤ 21 then
    digits.take n.toNat ++ '.' :: digits.drop n.toNat
  else if -6 < n ∧ n ≤ 0 then
    '0' :: '.' :: (List.replicate (-n).toNat '0' ++ digits)
  else
    (match digits with
     | [] => []
     | [d] => [d]
     | d :: rest => d :: '.' :: rest) ++
    'e' :: (if 1 ≤ n then '+' :: natDigits (n - 1).toNat
            else '-' :: natDigits (1 - n).toNat)

/-- Sign prefix around `jsNumCoreBody`. -/
def jsNumCore (neg : Bool) (M e : Nat) : String :=
  String.mk (if neg then '-' :: jsNumCoreBody M e else jsNumCoreBody M e)

/-- `ToString` of a finite JS number with a terminating decimal
expansion (`""` only for a non-terminating denominator, which cannot
occur for JSON-derived values). -/
def jsNumberToString (q : ℚ) : String :=
  if q = 0 then "0"
  else
    match expOf q.den with
    | none => ""
    | some e => jsNumCore (decide (q < 0)) (q.num.natAbs * 10 ^ e / q.den) e

/-! ## `parseFloat` -/
/-- Common JS whitespace (the model covers the ASCII subset). -/
def isWSChar (c : Char) : Bool := c = ' ' || c = '\t' || c = '\n' || c = '\r'

/-- Value of a digit string. -/
def digitsVal (ds : List Char) : Nat :=
  ds.foldl (fun a c => a * 10 + (c.toNat - 48)) 0

/-- Exponent part of a decimal literal prefix (`0` when absent or when
`e` is not followed by digits, which `parseFloat` then leaves
unconsumed). -/
def parseExp (cs : List Char) : Int :=
  match cs with
  | c :: rest =>
      if c = 'e' || c = 'E' then
        match rest with
        | c2 :: rest2 =>
            if c2 = '-' then -(digitsVal (rest2.takeWhile Char.isDigit) : Int)
            else if c2 = '+' then (digitsVal (rest2.takeWhile Char.isDigit) : Int)
            else (digitsVal ((c2 :: rest2).takeWhile Char.isDigit) : Int)
        | [] => 0
      else 0
  | [] => 0

/-- `parseFloat`: longest valid decimal-literal prefix after optional
whitespace and sign; `NaN` when no digits are found. -/
def parseFloat (s : String) : JSNum :=
  let cs0 := s.data.dropWhile isWSChar
  let neg : Bool := match cs0 with | c :: _ => c = '-' | [] => false
  let cs1 : List Char := match cs0 with
    | c :: r => if c = '-' || c = '+' then r else c :: r
    | [] => []
  if cs1.take 8 = "Infinity".data then (if neg then .neginf else .inf)
  else
    let ip := cs1.takeWhile Char.isDigit
    let r1 := cs1.dropWhile Char.isDigit
    let hasPt : Bool := match r1 with | c :: _ => c = '.' | [] => false
    let fp := if hasPt then r1.tail.takeWhile Char.isDigit else []
    let r2 := if hasPt then r1.tail.dropWhile Char.isDigit else r1
    if ip.isEmpty && fp.isEmpty then .nan
    else
      let ex := parseExp r2
      let mant : Int := (digitsVal ip * 10 ^ fp.length + digitsVal fp : Nat)
      let sm : Int := if neg then -mant else mant
      let e10 : Int := ex - (fp.length : Int)
      if 0 ≤ e10 then .fin (Rat.divInt (sm * 10 ^ e10.toNat) 1)
      else .fin (Rat.divInt sm (10 ^ (-e10).toNat))

/-- Condition of the string branch of the `metric_value` conversion:
`!isNaN(parseFloat(value)) && parseFloat(value) % 1 === 0 &&
!value.includes('.')` (an infinite `parseFloat` result fails the
`% 1 === 0` test since `Infinity % 1` is `NaN`). -/
def metricStringNeedsDecimal (s : String) : Bool :=
  (match parseFloat s with
   | .fin q => decide (q.den = 1)
   | _ => false) && !(s.data.contains '.')

/-- The `key === 'metric_value'` branch body of
`convertMetricValuesToStrings`: an integer number becomes
`` `${value}.0` ``, other numbers `value.toString()`; a string passing
`metricStringNeedsDecimal` gets `.0` appended; anything else is left
alone. -/
def convertMetricLeaf : JVal → JVal
  | .num q => .str (if q.den = 1 then jsNumberToString q ++ ".0" else jsNumberToString q)
  | .str s => if metricStringNeedsDecimal s then .str (s ++ ".0") else .str s
  | v => v

mutual
/-- `convertMetricValuesToStrings` as a pure tree transformation (the
source mutates in place): `metric_value` entries go through
`convertMetricLeaf`, every other object- or array-valued entry is
recursed into (`typeof value === 'object' && value !== null`), and
scalars are untouched. -/
def convertMetricValuesToStrings : JVal → JVal
  | .obj fs => .obj (convertMetricFields fs)
  | .arr xs => .arr (convertMetricArr xs)
  | v => v
/-- Entry loop of `convertMetricValuesToStrings` (`Object.entries`). -/
def convertMetricFields : JFields → JFields
  | .nil => .nil
  | .fcons k v rest =>
      .fcons k (if k = "metric_value" then convertMetricLeaf v
                else convertMetricValuesToStrings v)
        (convertMetricFields rest)
/-- Array elements: index keys are never `metric_value`, so elements
are only recursed into. -/
def convertMetricArr : JArr → JArr
  | .nil => .nil
  | .acons v rest => .acons (convertMetricValuesToStrings v) (convertMetricArr rest)
end

mutual
/-- Values of all `metric_value` entries of a tree, in traversal
order (not recursing below a `metric_value` key, exactly as the
converter does not). -/
def metricLeaves : JVal → List JVal
  | .obj fs => metricLeavesF fs
  | .arr xs => metricLeavesA xs
  | _ => []
/-- Metric leaves of a field list. -/
def metricLeavesF : JFields → List JVal
  | .nil => []
  | .fcons k v rest =>
      (if k = "metric_value" then [v] else metricLeaves v) ++ metricLeavesF rest
/-- Metric leaves of an array. -/
def metricLeavesA : JArr → List JVal
  | .nil => []
  | .acons v rest => metricLeaves v ++ metricLeavesA rest
end

/-- `filterEquipmentData`: falsy input is returned as-is; otherwise the
JSON round-trip copy (the identity on value trees), the top-level
`max_power` deletion and the metric-value conversion. -/
def filterEquipmentData (equipmentData : Option JVal) : Option JVal :=
  match equipmentData with
  | none => none
  | some v =>
      if jvalFalsy v then some v
      else some (convertMetricValuesToStrings (deleteKey "max_power" v))

/-- Predicate `contains a '.' followed by a digit` on a character
list. -/
def hasDotDigitL : List Char → Bool
  | a :: b :: rest => (a = '.' && b.isDigit) || hasDotDigitL (b :: rest)
  | _ => false

/-- The decimal-string invariant of the specification: the string
contains a `.` with at least one digit after it. -/
def hasDotDigit (s : String) : Bool := hasDotDigitL s.data

/-- Equipment-data object used by the C7 witness. -/
def c7fs0 : JFields :=
  .fcons "max_power" (.num 300)
    (.fcons "avg_power" (.obj (.fcons "metric_value" (.num 5) .nil)) .nil)

/-- Expected `filterEquipmentData` output for `c7fs0`. -/
def c7t0 : JVal :=
  .obj (.fcons "avg_power" (.obj (.fcons "metric_value" (.str "5.0") .nil)) .nil)

/-! ## The `getWorkouts` pipeline

`getWorkouts` is modelled as a pure function of the current time, the
booking list returned by `getBookingsForWorkouts`, the per-identifier
fetch results of the two fan-outs (`none` models a rejected promise)
and the class-uuid mapping.  JS `Record`s built by the fan-outs are
insertion-ordered association lists with upsert assignment. -/
/-- Record assignment `acc[k] = v` (overwrite in place, append if
new). -/
def recSet {α : Type} : List (String × α) → String → α → List (String × α)
  | [], k, v => [(k, v)]
  | p :: rest, k, v =>
      if p.1 = k then (k, v) :: rest else p :: recSet rest k v

/-- Record lookup `acc[k]` (`none` is `undefined`). -/
def recGet {α : Type} : List (String × α) → String → Option α
  | [], _ => none
  | p :: rest, k => if p.1 = k then some p.2 else recGet rest k

/-- `getPerformanceSummariesConcurrent`: each failing fetch is caught
and replaced by `{ id, data: null }`, and the reduce stores only
non-null data, so a failing identifier's key is omitted entirely. -/
def getPerformanceSummariesConcurrent (fetch : String → Option PerfSummary)
    (ids : List String) : List (String × PerfSummary) :=
  ids.foldl (fun acc i =>
    match fetch i with
    | some d => recSet acc i d
    | none => acc) []

/-- `getTelemetryConcurrent`: each failing fetch is caught and replaced
by `{ id, data: null }`, and the reduce stores the data untested, so a
failing identifier is present with value `null`. -/
def getTelemetryConcurrent (fetch : String → Option Telemetry)
    (ids : List String) : List (String × Option Telemetry) :=
  ids.foldl (fun acc i => recSet acc i (fetch i)) []

/-- The past-booking filter predicate of `getWorkouts`: `true` when
`otf_class?.starts_at` is falsy; otherwise `new Date(startsAt) <= now`
(false for an unparsable date, whose comparison is a `NaN`
comparison). -/
def pastBookingKeep (now : Int) (b : BookingV2) : Bool :=
  match startsField b with
  | none => true
  | some .invalid => false
  | some (.valid ms) => decide (ms ≤ now)

/-- The `pastBookings` filter of `getWorkouts`. -/
def filterPastBookings (now : Int) (bs : List BookingV2) : List BookingV2 :=
  bs.filter (pastBookingKeep now)

/-- `booking.workout?.performance_summary_id || null` (an empty id is
falsy and becomes `null` too). -/
def perfSummaryIdOf (b : BookingV2) : Option String :=
  jsOrStr (b.workout.map WorkoutRef.performance_summary_id) none

/-- `performanceSummaryIds`: the non-null ids of the bookings list
(`.map(item => item.perfSummaryId).filter(Boolean)`). -/
def performanceSummaryIds (bs : List BookingV2) : List String :=
  (bs.map perfSummaryIdOf).filterMap id

/-! ## `assembleWorkout` -/
/-- The `equipment_data` block of a performance summary. -/
structure EquipmentData where
  rower : Option JVal
  treadmill : Option JVal
deriving DecidableEq, Repr

/-- The fields of a performance summary that `getWorkouts` and
`assembleWorkout` read.  An absent performance summary is the empty
object `{}`, i.e. every field `undefined` (`psEmpty`). -/
structure PerfSummary where
  performance_summary_id : Option String
  ratable : Option Bool
  calories_burned : Option ℚ
  splat_points : Option ℚ
  step_count : Option ℚ
  zone_time_minutes : Option JVal
  heart_rate : Option HeartRate
  active_time_seconds : Option ℚ
  equipment_data : Option EquipmentData
deriving DecidableEq, Repr

/-- The empty performance summary `{}`. -/
def psEmpty : PerfSummary :=
  { performance_summary_id := none, ratable := none, calories_burned := none,
    splat_points := none, step_count := none, zone_time_minutes := none,
    heart_rate := none, active_time_seconds := none, equipment_data := none }

/-- JS `String.prototype.trim` (ASCII whitespace). -/
def strTrim (s : String) : String :=
  String.mk (((s.data.dropWhile isWSChar).reverse.dropWhile isWSChar).reverse)

/-- `formatCoachName`: `undefined` for a falsy coach, the string itself
for a string coach, otherwise the trimmed combination of
`first_name || firstName || ''` and `last_name || lastName || ''`. -/
def formatCoachName : Option CoachV → Option String
  | none => none
  | some (.str s) => if s = "" then none else some s
  | some (.obj fn ln fN lN) =>
      let firstName := (jsOrStr fn fN).getD ""
      let lastName := (jsOrStr ln lN).getD ""
      if firstName ≠ "" ∧ lastName ≠ "" then
        some (strTrim (firstName ++ " " ++ lastName))
      else if firstName ≠ "" then some (strTrim firstName)
      else if lastName ≠ "" then some (strTrim lastName)
      else none

/-- The assembled workout object (`WorkoutWithTelemetry`): the fields
produced by the `assembleWorkout` object literal. -/
structure Workout where
  performance_summary_id : String
  class_history_uuid : String
  booking_id : String
  class_uuid : Option String
  coach : Option String
  ratable : Bool
  class_rating : Option String
  coach_rating : Option String
  calories_burned : Option ℚ
  splat_points : Option ℚ
  step_count : Option ℚ
  zone_time_minutes : Option JVal
  heart_rate : Option HeartRate
  active_time_seconds : Option ℚ
  rower_data : Option JVal
  treadmill_data : Option JVal
  otf_class : Option BClass
  studio : Option String
  telemetry : Option Telemetry
deriving DecidableEq, Repr

/-- `assembleWorkout`: the object literal, with `none` modelling the
`RangeError` thrown out of the telemetry timestamp enhancement (the
only throwing field initialiser; the spread copy of `otf_class` is the
identity in the pure model). -/
def assembleWorkout (b : BookingV2) (ps : PerfSummary) (tel : Option Telemetry)
    (classUuid : Option String) : Option Workout :=
  match enhanceTelemetryWithTimestamps tel (startsField b) with
  | none => none
  | some enhTel =>
      some
        { performance_summary_id :=
            (jsOrStr ps.performance_summary_id
              (jsOrStr (b.workout.map WorkoutRef.performance_summary_id)
                (some "unknown"))).getD "unknown",
          class_history_uuid :=
            (jsOrStr ps.performance_summary_id
              (jsOrStr (b.workout.map WorkoutRef.performance_summary_id)
                (some "unknown"))).getD "unknown",
          booking_id := b.booking_id,
          class_uuid := jsOrStr classUuid none,
          coach := jsOrStr (formatCoachName (b.otf_class.bind BClass.coach)) none,
          ratable := b.ratable || ps.ratable.getD false,
          class_rating := jsOrStr b.class_rating none,
          coach_rating := jsOrStr b.coach_rating none,
          calories_burned := ps.calories_burned,
          splat_points := ps.splat_points,
          step_count := ps.step_count,
          zone_time_minutes := ps.zone_time_minutes,
          heart_rate := enhanceHeartRateWithTelemetry ps.heart_rate tel,
          active_time_seconds :=
            jsOrNum ps.active_time_seconds (b.workout.bind WorkoutRef.active_time_seconds),
          rower_data := filterEquipmentData (ps.equipment_data.bind EquipmentData.rower),
          treadmill_data := filterEquipmentData (ps.equipment_data.bind EquipmentData.treadmill),
          otf_class := b.otf_class,
          studio := b.otf_class.bind BClass.studio,
          telemetry := enhTel }

/-- The calorie-floor skip of the orchestrator loop:
`workout.calories_burned != null && workout.calories_burned < 100`. -/
def calorieSkip (w : Workout) : Bool :=
  match w.calories_burned with
  | some c => decide (c < 100)
  | none => false

/-- The per-booking loop of `getWorkouts`; a booking without
`otf_class` throws the validation error and is skipped by the `catch`,
as is a booking whose assembly throws; a workout failing the calorie
floor is skipped by the explicit `continue`. -/
def processBookings (perfD : List (String × PerfSummary))
    (telD : List (String × Option Telemetry))
    (uuidD : List (String × Option String)) : List BookingV2 → List Workout
  | [] => []
  | b :: rest =>
      let tailW := processBookings perfD telD uuidD rest
      let pid := perfSummaryIdOf b
      let ps := match pid with
        | some i => (recGet perfD i).getD psEmpty
        | none => psEmpty
      let tel : Option Telemetry := match pid with
        | some i => (recGet telD i).join
        | none => none
      if b.otf_class = none then tailW
      else
        let cu : Option String := match pid with
          | some i => jsOrStr (recGet uuidD i).join none
          | none => none
        match assembleWorkout b ps tel cu with
        | none => tailW
        | some w => if calorieSkip w then tailW else w :: tailW

/-- `getWorkouts` as a function of the current time, the fetched
bookings and the per-identifier fetch results: filter to past
bookings, collect the non-null performance-summary ids, build the
three dictionaries (empty when there are no ids) and run the
assembly loop. -/
def getWorkouts (now : Int) (bookings : List BookingV2)
    (fetchPerf : String → Option PerfSummary)
    (fetchTel : String → Option Telemetry)
    (uuidMapping : List (String × Option String)) : List Workout :=
  let pastB := filterPastBookings now bookings
  let ids := performanceSummaryIds pastB
  let perfD := if ids = [] then [] else getPerformanceSummariesConcurrent fetchPerf ids
  let telD := if ids = [] then [] else getTelemetryConcurrent fetchTel ids
  let uuidD := if ids = [] then [] else uuidMapping
  processBookings perfD telD uuidD pastB

/-- Booking used by the C4 witness: a class but no workout reference,
so the empty performance summary is assembled. -/
def c4book : BookingV2 := mkBooking "b-1" (some "c-1") none none none

/-- The workout `getWorkouts` assembles for `c4book`. -/
def c4w : Workout :=
  { performance_summary_id := "unknown", class_history_uuid := "unknown",
    booking_id := "b-1", class_uuid := none, coach := none, ratable := false,
    class_rating := none, coach_rating := none, calories_burned := none,
    splat_points := none, step_count := none, zone_time_minutes := none,
    heart_rate := none, active_time_seconds := none, rower_data := none,
    treadmill_data := none, otf_class := c4book.otf_class, studio := none,
    telemetry := none }

/-- Performance summary used by the C8 witness. -/
def c8ps : PerfSummary := { psEmpty with calories_burned := some 500 }

/-- Telemetry object used by the C8 witness. -/
def c8tel0 : Telemetry :=
  { class_history_uuid := none, class_start_time := none, max_hr := none,
    member_uuid := none, performance_summary_id := none, window_size := none,
    zones := none, telemetry := none, classHistoryUuid := none,
    classStartTime := none, maxHr := none, memberUuid := none }

/-! ## Heap model for the no-input-mutation claim

Mutation and aliasing are invisible in the pure embedding, so the
three copying helpers of `assembleWorkout` are additionally given a
small-step heap semantics: a heap is a list of objects (indexed by
allocation order), object fields hold primitives, references or
(immutable) arrays — none of the embedded helpers ever writes to an
existing array, only to objects.  A date-string property is recorded
as its parse result (`dateStr`), and a falsy (empty) date string as an
absent field.  Undefined-valued properties are omitted: they are
invisible to the reads and to JSON. -/
/-- Primitive heap values. -/
inductive PrimV where
  | num : ℚ → PrimV
  | str : String → PrimV
  | bool : Bool → PrimV
  | nul : PrimV
  | dateStr : JSDate → PrimV
deriving DecidableEq, Repr

mutual
/-- A heap value: primitive, object reference, or array. -/
inductive HVal where
  | prim : PrimV → HVal
  | ref : Nat → HVal
  | arr : HList → HVal
deriving DecidableEq, Repr
/-- A list of heap values (array contents). -/
inductive HList where
  | nil : HList
  | cons : HVal → HList → HList
deriving DecidableEq, Repr
end

/-- The ordered field list of a heap object. -/
inductive HFields where
  | nil : HFields
  | fcons : String → HVal → HFields → HFields
deriving DecidableEq, Repr

/-- A heap: objects in allocation order. -/
structure Heap where
  objs : List HFields
deriving DecidableEq, Repr

/-- Object lookup. -/
def lookupH (h : Heap) (r : Nat) : Option HFields := h.objs[r]?

/-- Allocation of a fresh object; returns the new heap and the new
reference. -/
def allocH (h : Heap) (o : HFields) : Heap × Nat :=
  ({ objs := h.objs ++ [o] }, h.objs.length)

/-- In-place overwrite of the object at `r`. -/
def writeH (h : Heap) (r : Nat) (o : HFields) : Heap :=
  { objs := h.objs.set r o }

/-- Field read on an object. -/
def fieldGet : HFields → String → Option HVal
  | .nil, _ => none
  | .fcons k' v rest, k => if k' = k then some v else fieldGet rest k

/-- Field assignment on an object (overwrite in place, append if
new). -/
def fieldSet : HFields → String → HVal → HFields
  | .nil, k, v => .fcons k v .nil
  | .fcons k' v' rest, k, v =>
      if k' = k then .fcons k v rest else .fcons k' v' (fieldSet rest k v)

/-- Field deletion on an object. -/
def fieldDel : HFields → String → HFields
  | .nil, _ => .nil
  | .fcons k' v rest, k =>
      if k' = k then fieldDel rest k else .fcons k' v (fieldDel rest k)

/-- Heap field write `h[r].k = v` (no-op on a dangling reference). -/
def setFieldH (h : Heap) (r : Nat) (k : String) (v : HVal) : Heap :=
  match lookupH h r with
  | some o => writeH h r (fieldSet o k v)
  | none => h

/-- Heap field deletion `delete h[r].k`. -/
def delFieldH (h : Heap) (r : Nat) (k : String) : Heap :=
  match lookupH h r with
  | some o => writeH h r (fieldDel o k)
  | none => h

/-- Heap field read `h[r].k`. -/
def getFieldH (h : Heap) (r : Nat) (k : String) : Option HVal :=
  (lookupH h r).bind (fun o => fieldGet o k)

/-- Truthiness of a primitive. -/
def primTruthy : PrimV → Bool
  | .num q => decide (q ≠ 0)
  | .str s => decide (s ≠ "")
  | .bool b => b
  | .nul => false
  | .dateStr _ => true

/-- Truthiness of a heap value (objects and arrays are truthy). -/
def hvalTruthy : HVal → Bool
  | .prim p => primTruthy p
  | .ref _ => true
  | .arr _ => true

/-- JavaScript `a || b` on optional heap values. -/
def jsOrH (a b : Option HVal) : Option HVal :=
  match a with
  | some v => if hvalTruthy v then some v else b
  | none => b

/-- Optional-chain field read `v?.k` (undefined on primitives, null
and undefined). -/
def optChainFieldH (h : Heap) (v : Option HVal) (k : String) : Option HVal :=
  match v with
  | some (.ref r) => getFieldH h r k
  | _ => none

/-- Conditional field of an object literal: an undefined value yields
no property. -/
def consField (k : String) (v : Option HVal) (rest : HFields) : HFields :=
  match v with
  | some x => .fcons k x rest
  | none => rest

/-- `enhanceHeartRateWithTelemetry` on the heap: falsy heart rate is
returned as-is with no heap effect; otherwise the spread copy
`{...heartRate}` allocates a fresh object and the `max_hr` correction
writes only to that copy. -/
def enhanceHeartRateWithTelemetryH (h : Heap) (heartRate telemetry : Option HVal) :
    Heap × Option HVal :=
  match heartRate with
  | none => (h, none)
  | some hv =>
      if hvalTruthy hv then
        match hv with
        | .ref r =>
            let o := (lookupH h r).getD .nil
            let p := allocH h o
            let h2 :=
              match telemetry with
              | some (.ref tr) =>
                  match getFieldH p.1 tr "maxHr" with
                  | some mv =>
                      if hvalTruthy mv then setFieldH p.1 p.2 "max_hr" mv else p.1
                  | none => p.1
              | _ => p.1
            (h2, some (.ref p.2))
        | _ => (h, some hv)
      else (h, some hv)

/-- Argument selector for the copy machine (`JSON.parse(JSON.stringify(...))`). -/
inductive CopyArg where
  | one : HVal → CopyArg
  | many : HList → CopyArg
  | fields : HFields → CopyArg
deriving DecidableEq, Repr

/-- Result selector for the copy machine. -/
inductive CopyRes where
  | v : HVal → CopyRes
  | vs : HList → CopyRes
  | fs : HFields → CopyRes
deriving DecidableEq, Repr

/-- The JSON round-trip deep copy: every reachable object is
re-allocated fresh; `none` models the `stringify` failure on circular
data, which happens before anything is allocated. -/
def copyGo : Nat → Heap → CopyArg → Option (Heap × CopyRes)
  | 0, _, _ => none
  | _+1, h, .one (.prim p) => some (h, .v (.prim p))
  | fuel+1, h, .one (.arr xs) =>
      match copyGo fuel h (.many xs) with
      | some (h', .vs ys) => some (h', .v (.arr ys))
      | _ => none
  | fuel+1, h, .one (.ref r) =>
      match lookupH h r with
      | none => some (h, .v (.prim .nul))
      | some o =>
          match copyGo fuel h (.fields o) with
          | some (h', .fs o') =>
              let p := allocH h' o'
              some (p.1, .v (.ref p.2))
          | _ => none
  | _+1, h, .many .nil => some (h, .vs .nil)
  | fuel+1, h, .many (.cons x xs) =>
      match copyGo fuel h (.one x) with
      | some (h1, .v y) =>
          match copyGo fuel h1 (.many xs) with
          | some (h2, .vs ys) => some (h2, .vs (.cons y ys))
          | _ => none
      | _ => none
  | _+1, h, .fields .nil => some (h, .fs .nil)
  | fuel+1, h, .fields (.fcons k x rest) =>
      match copyGo fuel h (.one x) with
      | some (h1, .v y) =>
          match copyGo fuel h1 (.fields rest) with
          | some (h2, .fs rest') => some (h2, .fs (.fcons k y rest'))
          | _ => none
      | _ => none

/-- The `metric_value` branch of the heap converter: writes the
converted string in place (on the copy). -/
def convertMetricLeafH (h : Heap) (r : Nat) (k : String) (v : HVal) : Heap :=
  match v with
  | .prim (.num q) =>
      setFieldH h r k (.prim (.str
        (if q.den = 1 then jsNumberToString q ++ ".0" else jsNumberToString q)))
  | .prim (.str s) =>
      if metricStringNeedsDecimal s then
        setFieldH h r k (.prim (.str (s ++ ".0")))
      else h
  | _ => h

/-- Argument selector for the mutating metric-value walk. -/
inductive HConvArg where
  | val : HVal → HConvArg
  | ents : Nat → HFields → HConvArg
  | list : HList → HConvArg
deriving DecidableEq, Repr

/-- `convertMetricValuesToStrings` on the heap: iterates the
`Object.entries` snapshot of each object, rewriting `metric_value`
entries in place and recursing into object- and array-valued
entries. -/
def convGoH : Nat → Heap → HConvArg → Heap
  | 0, h, _ => h
  | fuel+1, h, .val (.ref r) =>
      (match lookupH h r with
       | none => h
       | some o => convGoH fuel h (.ents r o))
  | fuel+1, h, .val (.arr xs) => convGoH fuel h (.list xs)
  | _+1, h, .val _ => h
  | _+1, h, .ents _ .nil => h
  | fuel+1, h, .ents r (.fcons k v rest) =>
      let h' := if k = "metric_value" then convertMetricLeafH h r k v
                else
                  (match v with
                   | .ref _ => convGoH fuel h (.val v)
                   | .arr _ => convGoH fuel h (.val v)
                   | _ => h)
      convGoH fuel h' (.ents r rest)
  | _+1, h, .list .nil => h
  | fuel+1, h, .list (.cons v rest) =>
      convGoH fuel (convGoH fuel h (.val v)) (.list rest)

/-- `filterEquipmentData` on the heap: falsy input untouched; else
deep copy, `delete` of `max_power` on the copy root and the metric
conversion over the copy.  The outer `none` is the `stringify` throw
(heap untouched, as `stringify` precedes all allocation). -/
def filterEquipmentDataH (fuel : Nat) (h : Heap) (ed : Option HVal) :
    Heap × Option (Option HVal) :=
  match ed with
  | none => (h, some none)
  | some v =>
      if hvalTruthy v then
        match copyGo fuel h (.one v) with
        | none => (h, none)
        | some (h1, .v c) =>
            let h2 := match c with | .ref r => delFieldH h1 r "max_power" | _ => h1
            let h3 := convGoH fuel h2 (.val c)
            (h3, some (some c))
        | some (h1, _) => (h1, none)
      else (h, some (some v))

/-- JS `ToIntegerOrInfinity` truncation toward zero. -/
def jsTrunc (q : ℚ) : Int := if 0 ≤ q then q.floor else -((-q).floor)

/-- One telemetry item on the heap: pass-through without a
`relative_timestamp`; otherwise the spread copy `{...item}` is
allocated first and the formatted timestamp written only to the copy
(`none` models the thrown `RangeError`; a `null` item throws on the
property access; a non-numeric `relative_timestamp` yields an invalid
date and likewise throws). -/
def enhanceItemH (h : Heap) (cst : JSDate) (item : HVal) : Heap × Option HVal :=
  match item with
  | .prim .nul => (h, none)
  | .ref r =>
      match getFieldH h r "relative_timestamp" with
      | none => (h, some item)
      | some (.prim .nul) => (h, some item)
      | some (.prim (.num rel)) =>
          let o := (lookupH h r).getD .nil
          let p := allocH h o
          (match cst with
           | .invalid => (p.1, none)
           | .valid ms =>
               match formatDateToPythonISO (.valid (ms + jsTrunc (rel * 1000))) with
               | none => (p.1, none)
               | some ts => (setFieldH p.1 p.2 "timestamp" (.prim (.str ts)), some (.ref p.2)))
      | some _ => (h, none)
  | _ => (h, some item)

/-- The `map` over telemetry items (left to right, aborting on a
throw but keeping the writes made so far). -/
def enhanceItemsH (h : Heap) (cst : JSDate) : HList → Heap × Option HList
  | .nil => (h, some .nil)
  | .cons it rest =>
      match enhanceItemH h cst it with
      | (h1, none) => (h1, none)
      | (h1, some it') =>
          match enhanceItemsH h1 cst rest with
          | (h2, none) => (h2, none)
          | (h2, some rest') => (h2, some (.cons it' rest'))

/-- `enhanceTelemetryWithTimestamps` on the heap: pass-through cases
return the original value with no heap effect; otherwise each item is
enhanced into a fresh copy and the result is a fresh array inside a
fresh object (rebuilt snake_case object when the input has a truthy
`classHistoryUuid`, otherwise the spread `{...telemetry, telemetry}`).
The outer `none` is the propagated `RangeError`. -/
def enhanceTelemetryWithTimestampsH (h : Heap) (telemetry : Option HVal)
    (classStartTime : Option JSDate) : Heap × Option (Option HVal) :=
  match telemetry, classStartTime with
  | none, _ => (h, some none)
  | some tv, none => (h, some (some tv))
  | some tv, some cst =>
      if hvalTruthy tv then
        match (match tv with
               | .arr xs => some xs
               | .ref r =>
                   (match getFieldH h r "telemetry" with
                    | some (.arr xs) => some xs
                    | _ => none)
               | _ => none : Option HList) with
        | none => (h, some (some tv))
        | some items =>
            match enhanceItemsH h cst items with
            | (h1, none) => (h1, none)
            | (h1, some enhanced) =>
                match tv with
                | .arr _ => (h1, some (some (.arr enhanced)))
                | .ref r =>
                    if hvalTruthy ((getFieldH h1 r "classHistoryUuid").getD (.prim .nul)) then
                      let p := allocH h1
                        (consField "class_history_uuid" (getFieldH h1 r "classHistoryUuid")
                          (consField "class_start_time" (getFieldH h1 r "classStartTime")
                            (consField "max_hr" (getFieldH h1 r "maxHr")
                              (consField "member_uuid" (getFieldH h1 r "memberUuid")
                                (consField "performance_summary_id" (getFieldH h1 r "classHistoryUuid")
                                  (.fcons "telemetry" (.arr enhanced) .nil))))))
                      (p.1, some (some (.ref p.2)))
                    else
                      let o := (lookupH h1 r).getD .nil
                      let p := allocH h1 (fieldSet o "telemetry" (.arr enhanced))
                      (p.1, some (some (.ref p.2)))
                | _ => (h1, some (some tv))
      else (h, some (some tv))

/-- String content of an optional heap value, empty otherwise
(used for the coach-name fallback `|| ''`). -/
def hvalStr (v : Option HVal) : String :=
  match v with
  | some (.prim (.str s)) => s
  | _ => ""

/-- `formatCoachName` on the heap (read-only). -/
def formatCoachNameH (h : Heap) (v : Option HVal) : Option String :=
  match v with
  | none => none
  | some c =>
      if hvalTruthy c then
        match c with
        | .prim (.str s) => some s
        | .ref r =>
            let firstName := hvalStr (jsOrH (getFieldH h r "first_name") (getFieldH h r "firstName"))
            let lastName := hvalStr (jsOrH (getFieldH h r "last_name") (getFieldH h r "lastName"))
            if firstName ≠ "" ∧ lastName ≠ "" then
              some (strTrim (firstName ++ " " ++ lastName))
            else if firstName ≠ "" then some (strTrim firstName)
            else if lastName ≠ "" then some (strTrim lastName)
            else none
        | _ => none
      else none

/-- The field list of the `{...booking.otf_class}` spread (empty
object for a missing or non-object class). -/
def ocSpreadH (h : Heap) (bookingR : Nat) : HFields :=
  match getFieldH h bookingR "otf_class" with
  | some (.ref cr) => (lookupH h cr).getD .nil
  | _ => .nil

/-- The parsed `booking.otf_class?.starts_at` date string (read-only). -/
def startsOfH (h : Heap) (bookingR : Nat) : Option JSDate :=
  match optChainFieldH h (getFieldH h bookingR "otf_class") "starts_at" with
  | some (.prim (.dateStr d)) => some d
  | _ => none

/-- `assembleWorkout` on the heap: the heart-rate enhancement, the two
equipment filters, the `{...booking.otf_class}` spread copy, the
telemetry enhancement and the result object literal, in source order;
`none` models a propagated throw (validation and `RangeError`). -/
def assembleWorkoutH (fuel : Nat) (h0 : Heap) (bookingR psR : Nat)
    (telemetry : Option HVal) (classUuid : Option String) : Heap × Option Nat :=
  let q1 := enhanceHeartRateWithTelemetryH h0 (getFieldH h0 psR "heart_rate") telemetry
  match filterEquipmentDataH fuel q1.1
      (optChainFieldH q1.1 (getFieldH q1.1 psR "equipment_data") "rower") with
  | (h2, none) => (h2, none)
  | (h2, some rowerV) =>
      match filterEquipmentDataH fuel h2
          (optChainFieldH h2 (getFieldH h2 psR "equipment_data") "treadmill") with
      | (h3, none) => (h3, none)
      | (h3, some treadV) =>
          let q4 := allocH h3 (ocSpreadH h3 bookingR)
          let cst := startsOfH q4.1 bookingR
          match enhanceTelemetryWithTimestampsH q4.1 telemetry cst with
          | (h5, none) => (h5, none)
          | (h5, some telV) =>
              let psidV : HVal :=
                (jsOrH (getFieldH h5 psR "performance_summary_id")
                  (jsOrH (optChainFieldH h5 (getFieldH h5 bookingR "workout")
                      "performance_summary_id")
                    (some (.prim (.str "unknown"))))).getD (.prim (.str "unknown"))
              let q6 := allocH h5
                (.fcons "performance_summary_id" psidV
                  (.fcons "class_history_uuid" psidV
                    (consField "booking_id" (getFieldH h5 bookingR "booking_id")
                      (consField "class_uuid"
                          ((jsOrStr classUuid none).map (fun s => HVal.prim (.str s)))
                        (consField "coach"
                            ((formatCoachNameH h5
                                (optChainFieldH h5 (getFieldH h5 bookingR "otf_class") "coach")).map
                              (fun s => HVal.prim (.str s)))
                          (.fcons "ratable"
                              ((jsOrH (getFieldH h5 bookingR "ratable")
                                  (jsOrH (getFieldH h5 psR "ratable")
                                    (some (.prim (.bool false))))).getD (.prim (.bool false)))
                            (.fcons "class_rating"
                                ((jsOrH (getFieldH h5 bookingR "class_rating")
                                    (some (.prim .nul))).getD (.prim .nul))
                              (.fcons "coach_rating"
                                  ((jsOrH (getFieldH h5 bookingR "coach_rating")
                                      (some (.prim .nul))).getD (.prim .nul))
                                (consField "calories_burned" (getFieldH h5 psR "calories_burned")
                                  (consField "splat_points" (getFieldH h5 psR "splat_points")
                                    (consField "step_count" (getFieldH h5 psR "step_count")
                                      (consField "zone_time_minutes"
                                          (getFieldH h5 psR "zone_time_minutes")
                                        (consField "heart_rate" q1.2
                                          (consField "active_time_seconds"
                                              (jsOrH (getFieldH h5 psR "active_time_seconds")
                                                (optChainFieldH h5
                                                  (getFieldH h5 bookingR "workout")
                                                  "active_time_seconds"))
                                            (consField "rower_data" rowerV
                                              (consField "treadmill_data" treadV
                                                (.fcons "otf_class" (.ref q4.2)
                                                  (consField "studio"
                                                      (optChainFieldH h5
                                                        (getFieldH h5 bookingR "otf_class") "studio")
                                                    (.fcons "telemetry"
                                                        (telV.getD (.prim .nul))
                                                      .nil)))))))))))))))))))
              (q6.1, some q6.2)

mutual
/-- All object references in a value are at least `n` (the value lives
entirely in the freshly-allocated region). -/
def hvalGE (n : Nat) : HVal → Bool
  | .prim _ => true
  | .ref r => decide (n ≤ r)
  | .arr xs => hlistGE n xs
/-- All references in an array are at least `n`. -/
def hlistGE (n : Nat) : HList → Bool
  | .nil => true
  | .cons v rest => hvalGE n v && hlistGE n rest
end

/-- All references in an object's fields are at least `n`. -/
def hfieldsGE (n : Nat) : HFields → Bool
  | .nil => true
  | .fcons _ v rest => hvalGE n v && hfieldsGE n rest

/-- The region of the heap at indices `≥ n` is reference-closed: every
object there refers only to objects at indices `≥ n`.  It holds
vacuously for `n = h.objs.length` and is maintained by the copy
allocator, so fresh copies never reach — hence never write —
pre-existing objects. -/
def HClosedAbove (n : Nat) (h : Heap) : Prop :=
  ∀ r o, n ≤ r → lookupH h r = some o → hfieldsGE n o = true

/-- Concrete heap for the C10 witness: booking (0) with class (1),
performance summary (2) with heart-rate block (3) and equipment data
(4) holding a rower (5) with `max_power` and a `metric_value`,
telemetry object (6) with `maxHr` and one sample (7). -/
def c10heap : Heap :=
  { objs :=
      [ .fcons "booking_id" (.prim (.str "b1")) (.fcons "otf_class" (.ref 1) .nil),
        .fcons "starts_at" (.prim (.dateStr (.valid 1705312800000))) .nil,
        .fcons "heart_rate" (.ref 3) (.fcons "equipment_data" (.ref 4) .nil),
        .fcons "peak_hr" (.prim (.num 180)) .nil,
        .fcons "rower" (.ref 5) .nil,
        .fcons "max_power" (.prim (.num 300)) (.fcons "metric_value" (.prim (.num 5)) .nil),
        .fcons "maxHr" (.prim (.num 190)) (.fcons "telemetry" (.arr (.cons (.ref 7) .nil)) .nil),
        .fcons "zone" (.prim (.str "orange")) .nil ] }

/-! ## Theorems -/

/-- `Rat.divInt` is used for `getTime() / 1000` because it reduces in
the kernel; it is the same rational as the field division. -/
theorem divInt_as_div (a b : Int) : Rat.divInt a b = (a : ℚ) / (b : ℚ) := by
  rw [Rat.divInt_eq_div]

theorem jsMerge_eq_merge (le : α → α → Bool) :
    ∀ (fuel : Nat) (xs ys : List α), xs.length + ys.length ≤ fuel →
      jsMerge le fuel xs ys = xs.merge ys le := by
  intro fuel
  induction fuel with
  | zero =>
      intro xs ys h
      match xs, ys with
      | [], [] => simp [jsMerge]
      | x :: xs, _ => simp at h
      | [], y :: ys => simp at h
  | succ fuel ih =>
      intro xs ys h
      match xs, ys with
      | [], ys => simp [jsMerge]
      | x :: xs, [] => simp [jsMerge]
      | x :: xs, y :: ys =>
          simp only [jsMerge, List.cons_merge_cons]
          by_cases hle : le x y
          · simp only [hle, if_true]
            rw [ih xs (y :: ys) (by simp at h ⊢; omega)]
          · simp only [hle, Bool.false_eq_true, if_false]
            rw [ih (x :: xs) ys (by simp at h ⊢; omega)]

theorem jsSortGo_eq_mergeSort (le : α → α → Bool) :
    ∀ (fuel : Nat) (l : List α), l.length ≤ fuel →
      jsSortGo le fuel l = l.mergeSort le := by
  intro fuel
  induction fuel with
  | zero =>
      intro l h
      match l with
      | [] => simp [jsSortGo]
      | x :: xs => simp at h
  | succ fuel ih =>
      intro l h
      match l with
      | [] => simp [jsSortGo]
      | [a] => simp [jsSortGo]
      | a :: b :: xs =>
          rw [List.mergeSort]
          simp only [jsSortGo]
          have hsplit₁ : (List.splitInTwo ⟨a :: b :: xs, rfl⟩).1.1
              = (a :: b :: xs).take (((a :: b :: xs).length + 1) / 2) := by
            simp [List.splitInTwo, List.splitAt_eq]
          have hsplit₂ : (List.splitInTwo ⟨a :: b :: xs, rfl⟩).2.1
              = (a :: b :: xs).drop (((a :: b :: xs).length + 1) / 2) := by
            simp [List.splitInTwo, List.splitAt_eq]
          rw [← hsplit₁, ← hsplit₂]
          have hlen : (a :: b :: xs).length = xs.length + 2 := by simp
          have h₁ : (List.splitInTwo ⟨a :: b :: xs, rfl⟩).1.1.length ≤ fuel := by
            have := (List.splitInTwo ⟨a :: b :: xs, rfl⟩).1.2
            simp at h ⊢
            omega
          have h₂ : (List.splitInTwo ⟨a :: b :: xs, rfl⟩).2.1.length ≤ fuel := by
            have := (List.splitInTwo ⟨a :: b :: xs, rfl⟩).2.2
            simp at h ⊢
            omega
          rw [ih _ h₁, ih _ h₂]
          apply jsMerge_eq_merge
          rw [List.length_mergeSort, List.length_mergeSort]
          have e₁ := (List.splitInTwo ⟨a :: b :: xs, rfl⟩).1.2
          have e₂ := (List.splitInTwo ⟨a :: b :: xs, rfl⟩).2.2
          simp at e₁ e₂ ⊢
          omega

/-- `jsArraySort` is `List.mergeSort`. -/
theorem jsArraySort_eq_mergeSort (l : List α) (le : α → α → Bool) :
    jsArraySort l le = l.mergeSort le :=
  jsSortGo_eq_mergeSort le l.length l (Nat.le_refl _)

/-! ## Basic lemmas about the sort model and the deduplicator -/
theorem cmpComp_self (x : JSNum) : cmpComp x x = 0 := by
  cases x <;> simp [cmpComp, JSNum.ltb]

theorem sortKey_fst (b : BookingV2) :
    (getBookingSortKey b).1 = startsNum (startsField b) := by
  unfold getBookingSortKey startsField startsNum
  cases h : b.otf_class with
  | none => simp
  | some c => cases c.starts_at with
    | none => simp
    | some d => cases d <;> simp

theorem mem_jsMerge {le : α → α → Bool} :
    ∀ {fuel : Nat} {xs ys : List α} {a : α},
      a ∈ jsMerge le fuel xs ys ↔ a ∈ xs ∨ a ∈ ys := by
  intro fuel
  induction fuel with
  | zero => intro xs ys a; simp [jsMerge]
  | succ fuel ih =>
      intro xs ys a
      match xs, ys with
      | [], ys => simp [jsMerge]
      | x :: xs, [] => simp [jsMerge]
      | x :: xs, y :: ys =>
          by_cases hle : le x y <;>
            simp [jsMerge, hle, ih, or_assoc, or_left_comm, or_comm]

theorem mem_jsSortGo {le : α → α → Bool} :
    ∀ {fuel : Nat} {l : List α} {a : α},
      a ∈ jsSortGo le fuel l ↔ a ∈ l := by
  intro fuel
  induction fuel with
  | zero => intro l a; simp [jsSortGo]
  | succ fuel ih =>
      intro l a
      match l with
      | [] => simp [jsSortGo]
      | [x] => simp [jsSortGo]
      | x :: y :: xs =>
          simp only [jsSortGo, mem_jsMerge, ih]
          rw [← List.mem_append, List.take_append_drop]

theorem mem_jsArraySort {le : α → α → Bool} {l : List α} {a : α} :
    a ∈ jsArraySort l le ↔ a ∈ l := mem_jsSortGo

theorem length_jsSortGo {le : α → α → Bool} :
    ∀ {fuel : Nat} {l : List α}, (jsSortGo le fuel l).length = l.length := by
  intro fuel
  induction fuel with
  | zero => intro l; simp [jsSortGo]
  | succ fuel ih =>
      intro l
      match l with
      | [] => simp [jsSortGo]
      | [x] => simp [jsSortGo]
      | x :: y :: xs =>
          have hm : ∀ (f : Nat) (xs ys : List α),
              (jsMerge le f xs ys).length = xs.length + ys.length := by
            intro f
            induction f with
            | zero => intro xs ys; simp [jsMerge]
            | succ f ihm =>
                intro xs ys
                match xs, ys with
                | [], ys => simp [jsMerge]
                | x :: xs, [] => simp [jsMerge]
                | x :: xs, y :: ys =>
                    by_cases hle : le x y <;> simp [jsMerge, hle, ihm] <;> omega
          simp only [jsSortGo, hm, ih]
          rw [← List.length_append, List.take_append_drop]

theorem keepBest_subset {g : List BookingV2} {b : BookingV2}
    (h : b ∈ keepBest g) : b ∈ g := by
  match g with
  | [] => simp [keepBest] at h
  | [a] => simpa [keepBest] using h
  | a :: c :: rest =>
      have hk : keepBest (a :: c :: rest)
          = match jsArraySort (a :: c :: rest) leSortKey with
            | [] => []
            | best :: _ => [best] := rfl
      rw [hk] at h
      rcases hs : jsArraySort (a :: c :: rest) leSortKey with _ | ⟨best, tail⟩ <;>
        rw [hs] at h
      · simp at h
      · simp at h
        subst h
        have hbm : b ∈ jsArraySort (a :: c :: rest) leSortKey := by
          rw [hs]; exact List.mem_cons_self _ _
        exact mem_jsArraySort.mp hbm

theorem keepBest_singleton {g : List BookingV2} (h : g ≠ []) :
    ∃ b, keepBest g = [b] ∧ b ∈ g := by
  match g with
  | [] => exact absurd rfl h
  | [a] => exact ⟨a, rfl, List.mem_singleton_self a⟩
  | a :: c :: rest =>
      have hk : keepBest (a :: c :: rest)
          = match jsArraySort (a :: c :: rest) leSortKey with
            | [] => []
            | best :: _ => [best] := rfl
      rcases hs : jsArraySort (a :: c :: rest) leSortKey with _ | ⟨best, tail⟩
      · exfalso
        have hlen := congrArg List.length hs
        simp [jsArraySort, length_jsSortGo] at hlen
      · refine ⟨best, ?_, ?_⟩
        · rw [hk, hs]
        · have hbm : best ∈ jsArraySort (a :: c :: rest) leSortKey := by
            rw [hs]; exact List.mem_cons_self _ _
          exact mem_jsArraySort.mp hbm

/-! ## Invariants of the grouping phase -/
theorem addToGroup_pres (P : BookingV2 → String → Prop) {k : String} {b : BookingV2}
    (hb : P b k) :
    ∀ {gs : List (String × List BookingV2)},
      (∀ p ∈ gs, ∀ x ∈ p.2, P x p.1) →
      ∀ p ∈ addToGroup k b gs, ∀ x ∈ p.2, P x p.1 := by
  intro gs
  induction gs with
  | nil =>
      intro _ p hp x hx
      simp [addToGroup] at hp
      subst hp
      simp at hx
      subst hx
      exact hb
  | cons q gs ih =>
      obtain ⟨k', g⟩ := q
      intro hgs p hp x hx
      simp only [addToGroup] at hp
      by_cases hk : k' = k
      · rw [if_pos hk] at hp
        rcases List.mem_cons.mp hp with hp | hp
        · subst hp
          rcases List.mem_append.mp hx with hx | hx
          · exact hgs (k', g) (List.mem_cons_self _ _) x hx
          · simp at hx; subst hx; exact hk ▸ hb
        · exact hgs p (List.mem_cons_of_mem _ hp) x hx
      · rw [if_neg hk] at hp
        rcases List.mem_cons.mp hp with hp | hp
        · subst hp
          exact hgs (k', g) (List.mem_cons_self _ _) x hx
        · exact ih (fun p hp => hgs p (List.mem_cons_of_mem _ hp)) p hp x hx

theorem foldl_groups_inv (P : BookingV2 → String → Prop) :
    ∀ (m : List BookingV2) (gs : List (String × List BookingV2)),
      (∀ b ∈ m, ∀ k, classIdOf b = some k → P b k) →
      (∀ p ∈ gs, ∀ x ∈ p.2, P x p.1) →
      ∀ p ∈ m.foldl
          (fun gs b =>
            match classIdOf b with
            | none => gs
            | some k => addToGroup k b gs) gs,
        ∀ x ∈ p.2, P x p.1 := by
  intro m
  induction m with
  | nil => intro gs _ h; simpa using h
  | cons b m ih =>
      intro gs hm h
      simp only [List.foldl_cons]
      cases hc : classIdOf b with
      | none =>
          simp only [hc]
          exact ih gs (fun x hx => hm x (List.mem_cons_of_mem _ hx)) h
      | some k =>
          simp only [hc]
          exact ih _ (fun x hx => hm x (List.mem_cons_of_mem _ hx))
            (addToGroup_pres P (hm b (List.mem_cons_self _ _) k hc) h)

theorem groupByClassId_mem_key {l : List BookingV2} {p : String × List BookingV2}
    (hp : p ∈ groupByClassId l) {b : BookingV2} (hb : b ∈ p.2) :
    classIdOf b = some p.1 :=
  foldl_groups_inv (fun x k => classIdOf x = some k) l []
    (fun _ _ _ h => h) (by simp) p hp b hb

theorem groupByClassId_mem_src {l : List BookingV2} {p : String × List BookingV2}
    (hp : p ∈ groupByClassId l) {b : BookingV2} (hb : b ∈ p.2) :
    b ∈ l :=
  foldl_groups_inv (fun x _ => x ∈ l) l []
    (fun _ hb _ _ => hb) (by simp) p hp b hb

theorem addToGroup_ne_nil {k : String} {b : BookingV2} :
    ∀ {gs : List (String × List BookingV2)},
      (∀ p ∈ gs, p.2 ≠ []) → ∀ p ∈ addToGroup k b gs, p.2 ≠ [] := by
  intro gs
  induction gs with
  | nil =>
      intro _ p hp
      simp [addToGroup] at hp
      subst hp
      simp
  | cons q gs ih =>
      obtain ⟨k', g⟩ := q
      intro hgs p hp
      simp only [addToGroup] at hp
      by_cases hk : k' = k
      · rw [if_pos hk] at hp
        rcases List.mem_cons.mp hp with hp | hp
        · subst hp; simp
        · exact hgs p (List.mem_cons_of_mem _ hp)
      · rw [if_neg hk] at hp
        rcases List.mem_cons.mp hp with hp | hp
        · subst hp
          exact hgs (k', g) (List.mem_cons_self _ _)
        · exact ih (fun p hp => hgs p (List.mem_cons_of_mem _ hp)) p hp

theorem groupByClassId_ne_nil {l : List BookingV2} :
    ∀ p ∈ groupByClassId l, p.2 ≠ [] := by
  suffices h : ∀ (m : List BookingV2) gs,
      (∀ p ∈ gs, p.2 ≠ []) →
      ∀ p ∈ m.foldl
          (fun gs b =>
            match classIdOf b with
            | none => gs
            | some k => addToGroup k b gs) gs,
        p.2 ≠ [] by
    exact h l [] (by simp)
  intro m
  induction m with
  | nil => intro gs h; simpa using h
  | cons b m ih =>
      intro gs h
      simp only [List.foldl_cons]
      cases hc : classIdOf b with
      | none => simp only [hc]; exact ih gs h
      | some k => simp only [hc]; exact ih _ (addToGroup_ne_nil h)

theorem addToGroup_keys (k : String) (b : BookingV2) :
    ∀ (gs : List (String × List BookingV2)),
      (addToGroup k b gs).map Prod.fst =
        if k ∈ gs.map Prod.fst then gs.map Prod.fst
        else gs.map Prod.fst ++ [k] := by
  intro gs
  induction gs with
  | nil => simp [addToGroup]
  | cons q gs ih =>
      obtain ⟨k', g⟩ := q
      by_cases hk : k' = k
      · subst hk
        simp [addToGroup]
      · simp only [addToGroup, if_neg hk, List.map_cons]
        rw [ih]
        by_cases hm : k ∈ gs.map Prod.fst
        · rw [if_pos hm, if_pos (by simp [hm])]
        · rw [if_neg hm, if_neg (by simp [hm, Ne.symm hk]), List.cons_append]

theorem groupByClassId_keys_nodup (l : List BookingV2) :
    ((groupByClassId l).map Prod.fst).Nodup := by
  suffices h : ∀ (m : List BookingV2) gs,
      (gs.map Prod.fst).Nodup →
      ((m.foldl
          (fun gs b =>
            match classIdOf b with
            | none => gs
            | some k => addToGroup k b gs) gs).map Prod.fst).Nodup by
    exact h l [] (by simp)
  intro m
  induction m with
  | nil => intro gs h; simpa using h
  | cons b m ih =>
      intro gs h
      simp only [List.foldl_cons]
      cases hc : classIdOf b with
      | none => simp only [hc]; exact ih gs h
      | some k =>
          simp only [hc]
          apply ih
          rw [addToGroup_keys]
          by_cases hm : k ∈ gs.map Prod.fst
          · rwa [if_pos hm]
          · rw [if_neg hm]
            simp [List.nodup_append, h, hm]

/-! ## The kept-bookings phase -/
theorem flatten_keepBest_map :
    ∀ (gs : List (String × List BookingV2)),
      (∀ p ∈ gs, p.2 ≠ []) →
      (∀ p ∈ gs, ∀ x ∈ p.2, classIdOf x = some p.1) →
      ((gs.map (fun p => keepBest p.2)).flatten).map classIdOf =
        gs.map (fun p => some p.1) := by
  intro gs
  induction gs with
  | nil => simp
  | cons p gs ih =>
      intro hne hkey
      obtain ⟨b, hb, hbm⟩ := keepBest_singleton (hne p (List.mem_cons_self _ _))
      simp only [List.map_cons, List.flatten_cons, hb, List.map_append]
      rw [ih (fun q hq => hne q (List.mem_cons_of_mem _ hq))
            (fun q hq => hkey q (List.mem_cons_of_mem _ hq))]
      simp [hkey p (List.mem_cons_self _ _) b hbm]

theorem deduplicateBookings_eq (l : List BookingV2) :
    deduplicateBookings l =
      jsArraySort (((groupByClassId l).map (fun p => keepBest p.2)).flatten) leStarts := rfl

theorem mem_dedup {l : List BookingV2} {b : BookingV2}
    (h : b ∈ deduplicateBookings l) : b ∈ l ∧ classIdOf b ≠ none := by
  rw [deduplicateBookings_eq] at h
  have h' := mem_jsArraySort.mp h
  rw [List.mem_flatten] at h'
  obtain ⟨s, hs, hbs⟩ := h'
  rw [List.mem_map] at hs
  obtain ⟨p, hp, rfl⟩ := hs
  have hb2 := keepBest_subset hbs
  refine ⟨groupByClassId_mem_src hp hb2, ?_⟩
  rw [groupByClassId_mem_key hp hb2]
  simp

theorem dedup_ids_nodup (l : List BookingV2) :
    ((deduplicateBookings l).map classIdOf).Nodup := by
  rw [deduplicateBookings_eq, jsArraySort_eq_mergeSort]
  have hperm : List.Perm
      ((((groupByClassId l).map (fun p => keepBest p.2)).flatten).mergeSort leStarts)
      (((groupByClassId l).map (fun p => keepBest p.2)).flatten) :=
    List.mergeSort_perm _ _
  apply (hperm.map classIdOf).nodup_iff.mpr
  rw [flatten_keepBest_map _ groupByClassId_ne_nil
        (fun p hp x hx => groupByClassId_mem_key hp hx)]
  have : (groupByClassId l).map (fun p => some p.1)
      = ((groupByClassId l).map Prod.fst).map Option.some := by
    simp [List.map_map, Function.comp]
  rw [this]
  exact (groupByClassId_keys_nodup l).map (fun _ _ h => Option.some.inj h)

/-! ## Grouping a list with pairwise-distinct class ids -/
theorem addToGroup_all_new {k : String} {b : BookingV2} :
    ∀ {gs : List (String × List BookingV2)},
      (∀ p ∈ gs, p.1 ≠ k) → addToGroup k b gs = gs ++ [(k, [b])] := by
  intro gs
  induction gs with
  | nil => intro _; simp [addToGroup]
  | cons q gs ih =>
      obtain ⟨k', g⟩ := q
      intro h
      have hk : k' ≠ k := h (k', g) (List.mem_cons_self _ _)
      simp only [addToGroup, if_neg hk, List.cons_append]
      rw [ih (fun p hp => h p (List.mem_cons_of_mem _ hp))]

theorem groupByClassId_of_distinct :
    ∀ (m : List BookingV2) (gs : List (String × List BookingV2)),
      (∀ b ∈ m, classIdOf b ≠ none) →
      ((m.map classIdOf).Nodup) →
      (∀ b ∈ m, ∀ p ∈ gs, classIdOf b ≠ some p.1) →
      m.foldl
          (fun gs b =>
            match classIdOf b with
            | none => gs
            | some k => addToGroup k b gs) gs =
        gs ++ m.map (fun b => ((classIdOf b).getD "", [b])) := by
  intro m
  induction m with
  | nil => intro gs _ _ _; simp
  | cons b m ih =>
      intro gs hsome hnodup hdisj
      have hnodup' : classIdOf b ∉ m.map classIdOf ∧ (m.map classIdOf).Nodup := by
        rw [List.map_cons, List.nodup_cons] at hnodup
        exact hnodup
      obtain ⟨k, hk⟩ := Option.ne_none_iff_exists'.mp (hsome b (List.mem_cons_self _ _))
      simp only [List.foldl_cons, hk]
      rw [addToGroup_all_new
            (fun p hp => fun he => hdisj b (List.mem_cons_self _ _) p hp (he ▸ hk))]
      rw [ih (gs ++ [(k, [b])])
            (fun x hx => hsome x (List.mem_cons_of_mem _ hx))
            hnodup'.2
            ?_]
      · simp [hk]
      · intro x hx p hp
        rcases List.mem_append.mp hp with hp | hp
        · exact hdisj x (List.mem_cons_of_mem _ hx) p hp
        · simp at hp
          rw [hp]
          intro he
          simp at he
          apply hnodup'.1
          rw [hk, ← he]
          exact List.mem_map_of_mem classIdOf hx

theorem flatten_map_singleton (m : List α) :
    (m.map (fun b => [b])).flatten = m := by
  induction m with
  | nil => rfl
  | cons a m ihm => simp only [List.map_cons, List.flatten_cons, ihm, List.singleton_append]

theorem keepPhase_of_distinct {m : List BookingV2}
    (hsome : ∀ b ∈ m, classIdOf b ≠ none)
    (hnodup : (m.map classIdOf).Nodup) :
    ((groupByClassId m).map (fun p => keepBest p.2)).flatten = m := by
  unfold groupByClassId
  rw [groupByClassId_of_distinct m [] hsome hnodup (by simp)]
  simp only [List.nil_append, List.map_map]
  have : (m.map ((fun p => keepBest p.2) ∘ fun b => ((classIdOf b).getD "", [b])))
      = m.map (fun b => [b]) := by
    apply List.map_congr_left
    intro b _
    simp [keepBest]
  rw [this]
  exact flatten_map_singleton m

/-! ## Comparator congruence and the total companion order -/
theorem jsMerge_congr {le le' : α → α → Bool} :
    ∀ {fuel : Nat} {xs ys : List α},
      (∀ a b, a ∈ xs → b ∈ ys → le a b = le' a b) →
      jsMerge le fuel xs ys = jsMerge le' fuel xs ys := by
  intro fuel
  induction fuel with
  | zero => intro xs ys _; rfl
  | succ fuel ih =>
      intro xs ys h
      match xs, ys with
      | [], ys => rfl
      | x :: xs, [] => rfl
      | x :: xs, y :: ys =>
          simp only [jsMerge]
          rw [h x y (List.mem_cons_self _ _) (List.mem_cons_self _ _),
            ih (fun a b ha hb => h a b (List.mem_cons_of_mem _ ha) hb),
            ih (fun a b ha hb => h a b ha (List.mem_cons_of_mem _ hb))]

theorem jsSortGo_congr {le le' : α → α → Bool} :
    ∀ {fuel : Nat} {l : List α},
      (∀ a b, a ∈ l → b ∈ l → le a b = le' a b) →
      jsSortGo le fuel l = jsSortGo le' fuel l := by
  intro fuel
  induction fuel with
  | zero => intro l _; rfl
  | succ fuel ih =>
      intro l h
      match l with
      | [] => rfl
      | [a] => rfl
      | a :: b :: xs =>
          simp only [jsSortGo]
          have h₁ : ∀ x y,
              x ∈ (a :: b :: xs).take (((a :: b :: xs).length + 1) / 2) →
              y ∈ (a :: b :: xs).take (((a :: b :: xs).length + 1) / 2) →
              le x y = le' x y :=
            fun x y hx hy => h x y (List.mem_of_mem_take hx) (List.mem_of_mem_take hy)
          have h₂ : ∀ x y,
              x ∈ (a :: b :: xs).drop (((a :: b :: xs).length + 1) / 2) →
              y ∈ (a :: b :: xs).drop (((a :: b :: xs).length + 1) / 2) →
              le x y = le' x y :=
            fun x y hx hy => h x y (List.mem_of_mem_drop hx) (List.mem_of_mem_drop hy)
          rw [ih h₁, ih h₂]
          apply jsMerge_congr
          intro x y hx hy
          exact h x y
            (List.mem_of_mem_take (mem_jsSortGo.mp hx))
            (List.mem_of_mem_drop (mem_jsSortGo.mp hy))

theorem jsArraySort_congr {le le' : α → α → Bool} {l : List α}
    (h : ∀ a b, a ∈ l → b ∈ l → le a b = le' a b) :
    jsArraySort l le = jsArraySort l le' := jsSortGo_congr h

theorem leStarts_eq_leStartsT {a b : BookingV2}
    (ha : ParseableStart a) (hb : ParseableStart b) :
    leStarts a b = leStartsT a b := by
  unfold ParseableStart at ha hb
  unfold leStarts cmpStarts leStartsT startsVal
  rcases hsa : startsField a with _ | da
  · rcases hsb : startsField b with _ | db
    · simp
    · cases db
      · exact absurd hsb hb
      · simp
  · rcases hsb : startsField b with _ | db
    · cases da
      · exact absurd hsa ha
      · simp
    · cases da with
      | invalid => exact absurd hsa ha
      | valid ta =>
          cases db with
          | invalid => exact absurd hsb hb
          | valid tb => simp [sub_nonpos]

theorem leStartsT_trans (a b c : BookingV2) :
    leStartsT a b → leStartsT b c → leStartsT a c := by
  unfold leStartsT
  rcases startsVal a with _ | x <;> rcases startsVal b with _ | y <;>
    rcases startsVal c with _ | z <;> simp
  all_goals omega

theorem leStartsT_total (a b : BookingV2) :
    leStartsT a b || leStartsT b a := by
  unfold leStartsT
  rcases startsVal a with _ | x <;> rcases startsVal b with _ | y <;> simp
  all_goals omega

/-! ## Idempotence of deduplication on consistent inputs -/
theorem dedup_mem_iff_keep (l : List BookingV2) (b : BookingV2) :
    b ∈ deduplicateBookings l ↔
      b ∈ ((groupByClassId l).map (fun p => keepBest p.2)).flatten := by
  rw [deduplicateBookings_eq]
  exact mem_jsArraySort

theorem dedup_idempotent_of_parseable (l : List BookingV2)
    (h : ∀ b ∈ l, ParseableStart b) :
    deduplicateBookings (deduplicateBookings l) = deduplicateBookings l := by
  have hDmem : ∀ b ∈ deduplicateBookings l, b ∈ l ∧ classIdOf b ≠ none :=
    fun b hb => mem_dedup hb
  have hDpar : ∀ b ∈ deduplicateBookings l, ParseableStart b :=
    fun b hb => h b (hDmem b hb).1
  -- The first run, with the comparator replaced by its total companion.
  have hKpar : ∀ b ∈ ((groupByClassId l).map (fun p => keepBest p.2)).flatten,
      ParseableStart b := by
    intro b hb
    exact hDpar b ((dedup_mem_iff_keep l b).mpr hb)
  have hD' : deduplicateBookings l =
      (((groupByClassId l).map (fun p => keepBest p.2)).flatten).mergeSort leStartsT := by
    rw [deduplicateBookings_eq,
      jsArraySort_congr (fun a b ha hb => leStarts_eq_leStartsT (hKpar a ha) (hKpar b hb)),
      jsArraySort_eq_mergeSort]
  have hsorted : (deduplicateBookings l).Pairwise (leStartsT · ·) := by
    rw [hD']
    exact List.sorted_mergeSort leStartsT_trans leStartsT_total _
  -- The second run keeps every booking (all class ids present and distinct).
  have hkeep2 : ((groupByClassId (deduplicateBookings l)).map
      (fun p => keepBest p.2)).flatten = deduplicateBookings l :=
    keepPhase_of_distinct (fun b hb => (hDmem b hb).2) (dedup_ids_nodup l)
  rw [deduplicateBookings_eq (deduplicateBookings l), hkeep2,
    jsArraySort_congr (fun a b ha hb => leStarts_eq_leStartsT (hDpar a ha) (hDpar b hb)),
    jsArraySort_eq_mergeSort]
  exact List.mergeSort_of_sorted hsorted

/-! ## Sort-key component lemmas -/
theorem sortKey_upd (b : BookingV2) :
    (getBookingSortKey b).2.1 = (safeTimestamp b.updated_at).negJ := rfl

theorem sortKey_created (b : BookingV2) :
    (getBookingSortKey b).2.2.1 = (safeTimestamp b.created_at).negJ := rfl

/-- C1 (amended): for two bookings with the same class identity, the
same status and the same class start time, where one `updated_at` is
valid (`safeTimestamp` finite) and the other is absent/unparsable/epoch
zero (`safeTimestamp` is `Infinity`), the booking with the BAD
timestamp survives deduplication in either input order: the sort key
negates `safeTimestamp`, turning `+Infinity` (the intended worst score)
into `-Infinity`, the best possible rank. -/
theorem c1_bad_updated_at_always_outranks_valid
    (g b : BookingV2) (s : String) (q : ℚ)
    (hg : classIdOf g = some s) (hb : classIdOf b = some s)
    (_hstatus : g.status = b.status)
    (hstart : startsField g = startsField b)
    (hgood : safeTimestamp g.updated_at = .fin q)
    (hbad : safeTimestamp b.updated_at = .inf) :
    deduplicateBookings [g, b] = [b] ∧ deduplicateBookings [b, g] = [b] := by
  have e1 : cmpComp (getBookingSortKey g).1 (getBookingSortKey b).1 = 0 := by
    rw [sortKey_fst g, sortKey_fst b, hstart, cmpComp_self]
  have e1' : cmpComp (getBookingSortKey b).1 (getBookingSortKey g).1 = 0 := by
    rw [sortKey_fst g, sortKey_fst b, hstart, cmpComp_self]
  have e2 : cmpComp (getBookingSortKey g).2.1 (getBookingSortKey b).2.1 = 1 := by
    rw [sortKey_upd g, sortKey_upd b, hgood, hbad]
    simp [JSNum.negJ, cmpComp, JSNum.ltb]
  have e2' : cmpComp (getBookingSortKey b).2.1 (getBookingSortKey g).2.1 = -1 := by
    rw [sortKey_upd g, sortKey_upd b, hgood, hbad]
    simp [JSNum.negJ, cmpComp, JSNum.ltb]
  have h1 : cmpSortKey g b = 1 := by
    simp [cmpSortKey, e1, e2]
  have h1' : cmpSortKey b g = -1 := by
    simp [cmpSortKey, e1', e2']
  have hle1 : leSortKey g b = false := by simp [leSortKey, h1]
  have hle2 : leSortKey b g = true := by simp [leSortKey, h1']
  constructor
  · simp [deduplicateBookings, groupByClassId, addToGroup, hg, hb, keepBest,
      jsArraySort, jsSortGo, jsMerge, hle1]
  · simp [deduplicateBookings, groupByClassId, addToGroup, hg, hb, keepBest,
      jsArraySort, jsSortGo, jsMerge, hle2]

/-- C1 counterexample: two bookings for class `class-123`, both
`Booked`, same class start time; `c1good` has a valid `updated_at`,
`c1bad` has an absent one (`safeTimestamp` is `Infinity`).  Contrary to
the claim, the booking with the bad timestamp survives deduplication in
either order, so the valid booking does NOT always survive. -/
theorem c1_counterexample :
    c1good.status = c1bad.status ∧
    startsField c1good = startsField c1bad ∧
    safeTimestamp c1good.updated_at = .fin 1704100000 ∧
    safeTimestamp c1bad.updated_at = .inf ∧
    deduplicateBookings [c1good, c1bad] = [c1bad] ∧
    deduplicateBookings [c1bad, c1good] = [c1bad] := by
  refine ⟨rfl, rfl, by decide, rfl, by decide, by decide⟩

/-- C1 witness: instantiates `c1_bad_updated_at_always_outranks_valid`
at the concrete pair `c1wGood`/`c1wBad` (unparsable `updated_at`). -/
theorem c1_witness :
    deduplicateBookings [c1wGood, c1wBad] = [c1wBad] ∧
    deduplicateBookings [c1wBad, c1wGood] = [c1wBad] :=
  c1_bad_updated_at_always_outranks_valid c1wGood c1wBad "class-7" 1000
    (by decide) (by decide) rfl rfl (by decide) rfl

/-- C2 (amended): a booking whose class identity is absent is dropped
by the deduplicator, not retained: every booking in the output of
`deduplicateBookings` has a truthy `class_id`. -/
theorem c2_classless_bookings_are_dropped
    (l : List BookingV2) (b : BookingV2)
    (hb : b ∈ deduplicateBookings l) : classIdOf b ≠ none :=
  (mem_dedup hb).2

/-- C2 counterexample: a booking with `otf_class` equal to `null` (so
no class identity) does not appear unchanged in the output — the
deduplicator drops it entirely, returning the empty list. -/
theorem c2_counterexample :
    classIdOf c2orphan = none ∧ deduplicateBookings [c2orphan] = [] :=
  ⟨rfl, by decide⟩

/-- C2 witness: instantiates `c2_classless_bookings_are_dropped` at a
concrete surviving booking. -/
theorem c2_witness : classIdOf c2kept ≠ none :=
  c2_classless_bookings_are_dropped [c2kept] c2kept (by decide)

/-- C9 (amended): the deduplicator is idempotent on every input whose
bookings all have an absent or parseable class start time.  (With an
unparsable start time the final comparator returns `NaN`, treated as a
tie, and is inconsistent; re-sorting may then reorder — see
`c9_counterexample`.) -/
theorem c9_dedup_idempotent_on_parseable_starts
    (l : List BookingV2) (h : ∀ b ∈ l, ParseableStart b) :
    deduplicateBookings (deduplicateBookings l) = deduplicateBookings l :=
  dedup_idempotent_of_parseable l h

/-- C9 counterexample: six bookings with distinct class ids, one with
an unparsable class start time.  Running the deduplicator twice does
not reproduce its own output: the second run reorders the list. -/
theorem c9_counterexample :
    deduplicateBookings (deduplicateBookings x9) ≠ deduplicateBookings x9 := by
  decide

/-- C9 witness: instantiates the amended idempotence theorem on a
concrete list with parseable/absent start times. -/
theorem c9_witness :
    deduplicateBookings (deduplicateBookings w9) = deduplicateBookings w9 :=
  c9_dedup_idempotent_on_parseable_starts w9 (by decide)

theorem civilFromDays_bounds (z : Int) (hz1 : -719528 ≤ z) (hz2 : z ≤ 2932896) :
    0 ≤ (civilFromDays z).1 ∧ (civilFromDays z).1 ≤ 9999 ∧
    (civilFromDays z).2.1 ≤ 99 ∧ (civilFromDays z).2.2 ≤ 99 := by
  unfold civilFromDays
  dsimp only
  set z' := z + 719468 with hz'
  set era : Int := z' / 146097 with hera
  set doe : Nat := (z' - era * 146097).toNat with hdoe
  have hdoe_ub : doe ≤ 146096 := by omega
  have hera_lb : -1 ≤ era := by omega
  have hera_ub : era ≤ 24 := by omega
  set yoe : Nat := (doe - doe / 1460 + doe / 36524 - doe / 146096) / 365 with hyoe
  have hyoe_ub : yoe ≤ 399 := by omega
  set doy : Nat := doe - (365 * yoe + yoe / 4 - yoe / 100) with hdoy
  have hdoy_ub : doy ≤ 468 := by omega
  set mp : Nat := (5 * doy + 2) / 153 with hmp
  have hmp_ub : mp ≤ 15 := by omega
  have hA : era = -1 → 146037 ≤ doe := by omega
  have hB : era = 24 → doe ≤ 146036 := by omega
  have hyoe_det : 146037 ≤ doe → yoe = 399 := by omega
  have hdoy399 : yoe = 399 → doy = doe - 145731 := by omega
  have hneg : era = -1 → 10 ≤ mp := by
    intro h
    have h1 := hA h
    have h2 := hyoe_det h1
    have h3 := hdoy399 h2
    omega
  have hpos : era = 24 → yoe = 399 → mp ≤ 9 := by
    intro h h2
    have h1 := hB h
    have h3 := hdoy399 h2
    omega
  set d : Nat := doy - (153 * mp + 2) / 5 + 1 with hd
  have hd_ub : d ≤ 31 := by omega
  split_ifs with h1 h2 h3 <;> omega

theorem digitChar_isDigit : ∀ n, n < 10 → (Nat.digitChar n).isDigit = true := by decide

theorem matches_python_of_digits
    (y1 y2 y3 y4 mo1 mo2 dd1 dd2 hh1 hh2 mi1 mi2 ss1 ss2 ms1 ms2 ms3 : Nat)
    (hy1 : y1 < 10) (hy2 : y2 < 10) (hy3 : y3 < 10) (hy4 : y4 < 10)
    (hmo1 : mo1 < 10) (hmo2 : mo2 < 10) (hdd1 : dd1 < 10) (hdd2 : dd2 < 10)
    (hhh1 : hh1 < 10) (hhh2 : hh2 < 10) (hmi1 : mi1 < 10) (hmi2 : mi2 < 10)
    (hss1 : ss1 < 10) (hss2 : ss2 < 10)
    (hms1 : ms1 < 10) (hms2 : ms2 < 10) (hms3 : ms3 < 10) :
    matchesPythonISO (replaceMsZ (String.mk
      [Nat.digitChar y1, Nat.digitChar y2, Nat.digitChar y3, Nat.digitChar y4, '-',
       Nat.digitChar mo1, Nat.digitChar mo2, '-', Nat.digitChar dd1, Nat.digitChar dd2, 'T',
       Nat.digitChar hh1, Nat.digitChar hh2, ':', Nat.digitChar mi1, Nat.digitChar mi2, ':',
       Nat.digitChar ss1, Nat.digitChar ss2, '.', Nat.digitChar ms1, Nat.digitChar ms2,
       Nat.digitChar ms3, 'Z'])) = true := by
  unfold replaceMsZ matchesPythonISO
  simp [digitChar_isDigit _ hy1, digitChar_isDigit _ hy2, digitChar_isDigit _ hy3,
    digitChar_isDigit _ hy4, digitChar_isDigit _ hmo1, digitChar_isDigit _ hmo2,
    digitChar_isDigit _ hdd1, digitChar_isDigit _ hdd2, digitChar_isDigit _ hhh1,
    digitChar_isDigit _ hhh2, digitChar_isDigit _ hmi1, digitChar_isDigit _ hmi2,
    digitChar_isDigit _ hss1, digitChar_isDigit _ hss2,
    digitChar_isDigit _ hms1, digitChar_isDigit _ hms2, digitChar_isDigit _ hms3]

theorem pythonISO_matches (t : Int) (ht1 : -62167219200000 ≤ t) (ht2 : t ≤ 253402300799999) :
    matchesPythonISO (pythonISOofMs t) = true := by
  unfold pythonISOofMs toISOStringChars
  dsimp only
  set days := t / 86400000 with hdays
  have hd1 : -719528 ≤ days := by omega
  have hd2 : days ≤ 2932896 := by omega
  obtain ⟨hy0, hy1, hm1, hdd1⟩ := civilFromDays_bounds days hd1 hd2
  set msod : Nat := (t % 86400000).toNat with hmsod
  have hms_ub : msod ≤ 86399999 := by omega
  rw [if_pos ⟨hy0, hy1⟩]
  have key := matches_python_of_digits
      ((civilFromDays days).1.toNat / 1000) (((civilFromDays days).1.toNat / 100) % 10)
      (((civilFromDays days).1.toNat / 10) % 10) ((civilFromDays days).1.toNat % 10)
      ((civilFromDays days).2.1 / 10) ((civilFromDays days).2.1 % 10)
      ((civilFromDays days).2.2 / 10) ((civilFromDays days).2.2 % 10)
      ((msod / 3600000) / 10) ((msod / 3600000) % 10)
      (((msod / 60000) % 60) / 10) (((msod / 60000) % 60) % 10)
      (((msod / 1000) % 60) / 10) (((msod / 1000) % 60) % 10)
      ((msod % 1000) / 100) (((msod % 1000) / 10) % 10) ((msod % 1000) % 10)
      (by omega) (by omega) (by omega) (by omega)
      (by omega) (by omega) (by omega) (by omega)
      (by omega) (by omega) (by omega) (by omega)
      (by omega) (by omega) (by omega) (by omega) (by omega)
  simpa [pad4, pad2, pad3] using key

theorem formatDateToPythonISO_of_range {u : Int}
    (h1 : -62167219200000 ≤ u) (h2 : u ≤ 253402300799999) :
    formatDateToPythonISO (.valid u) = some (pythonISOofMs u) := by
  unfold formatDateToPythonISO jsToISOString
  dsimp only
  rw [if_pos (by omega : u.natAbs ≤ 8640000000000000)]
  rfl

/-- C6 (amended): telemetry passes through unchanged when the class
start time is falsy, samples without a `relative_timestamp` are left
alone, and a sample with `relative_timestamp = rel` gets the absolute
timestamp `classStart + rel` seconds in the `YYYY-MM-DDTHH:mm:ss+00:00`
format — PROVIDED the absolute time falls within years 0–9999
(otherwise `toISOString` uses the expanded ±YYYYYY year form and the
pattern fails, see `c6_counterexample`); finally, on success the
enhanced sample list is exactly what the per-item map produced. -/
theorem c6_telemetry_timestamp_format :
    (∀ t : Telemetry, enhanceTelemetryWithTimestamps (some t) none = some (some t)) ∧
    (∀ (cst : JSDate) (item : TelemetrySample), item.relative_timestamp = none →
      enhanceTelemetryItem cst item = some item) ∧
    (∀ (ms rel : Int) (item : TelemetrySample), item.relative_timestamp = some rel →
      -62167219200000 ≤ ms + rel * 1000 → ms + rel * 1000 ≤ 253402300799999 →
      enhanceTelemetryItem (.valid ms) item
          = some { item with timestamp := some (pythonISOofMs (ms + rel * 1000)) } ∧
      matchesPythonISO (pythonISOofMs (ms + rel * 1000)) = true) ∧
    (∀ (t : Telemetry) (items items' : List TelemetrySample) (cst : JSDate),
      t.telemetry = some items →
      items.mapM (enhanceTelemetryItem cst) = some items' →
      ∃ t', enhanceTelemetryWithTimestamps (some t) (some cst) = some (some t') ∧
            t'.telemetry = some items') := by
  refine ⟨fun t => rfl, ?_, ?_, ?_⟩
  · intro cst item h
    simp [enhanceTelemetryItem, h]
  · intro ms rel item h h1 h2
    constructor
    · simp [enhanceTelemetryItem, h, formatDateToPythonISO_of_range h1 h2]
    · exact pythonISO_matches _ h1 h2
  · intro t items items' cst ht hmap
    unfold enhanceTelemetryWithTimestamps
    dsimp only
    rw [ht]
    dsimp only
    rw [hmap]
    dsimp only
    by_cases hc : strTruthy t.classHistoryUuid
    · rw [if_pos hc]
      exact ⟨_, rfl, rfl⟩
    · rw [if_neg hc]
      exact ⟨_, rfl, rfl⟩

/-- C6 counterexample: with a class start of 9999-12-31T23:59:59Z and a
sample 100 seconds in, the enhanced timestamp is in year 10000 and is
printed in the ECMAScript expanded-year form
`+010000-01-01T00:01:39+00:00`, which does not match the claimed
`YYYY-MM-DDTHH:mm:ss+00:00` pattern. -/
theorem c6_counterexample :
    enhanceTelemetryWithTimestamps (some c6tel) (some (.valid 253402300799000))
      = some (some { c6tel with
          telemetry := some [{ c6item with
            timestamp := some "+010000-01-01T00:01:39+00:00" }] }) ∧
    matchesPythonISO "+010000-01-01T00:01:39+00:00" = false := by
  constructor
  · decide
  · decide

/-- C6 witness: the specification's own example — class start
2024-01-15T10:00:00+00:00 (epoch ms 1705312800000) and
`relative_timestamp` 300 yields `2024-01-15T10:05:00+00:00`, matching
the pattern; proved by instantiating `c6_telemetry_timestamp_format`. -/
theorem c6_witness :
    enhanceTelemetryItem (.valid 1705312800000) c6wItem
        = some { c6wItem with
            timestamp := some (pythonISOofMs (1705312800000 + 300 * 1000)) } ∧
    matchesPythonISO (pythonISOofMs (1705312800000 + 300 * 1000)) = true ∧
    pythonISOofMs (1705312800000 + 300 * 1000) = "2024-01-15T10:05:00+00:00" := by
  have h := c6_telemetry_timestamp_format.2.2.1 1705312800000 300 c6wItem
    (by decide) (by decide) (by decide)
  exact ⟨h.1, h.2, by decide⟩

/-- C5 (code bug): the object `getTelemetry` returns carries the
observed maximum under the snake_case key `max_hr`, but
`enhanceHeartRateWithTelemetry` probes the camelCase key `maxHr`,
which `getTelemetry` never sets.  Hence for EVERY response, the
heart-rate correction never fires in the pipeline: the assembled
`max_hr` stays unchanged even when telemetry carries 195, contradicting
the claimed `heart_rate.max_hr === 195` scenario. -/
theorem c5_max_hr_correction_never_fires :
    (∀ (mu pid : String) (resp : Option TelemetryResponse) (t : Telemetry),
        getTelemetry mu pid resp = some t →
        t.maxHr = none ∧
        ∀ hr : HeartRate, enhanceHeartRateWithTelemetry (some hr) (some t) = some hr) ∧
    (getTelemetry "m-5" "perf-5" (some c5resp)).map (fun t => t.max_hr)
        = some (some 195) ∧
    enhanceHeartRateWithTelemetry (some c5hr) (getTelemetry "m-5" "perf-5" (some c5resp))
        = some c5hr ∧
    c5hr.max_hr = none := by
  refine ⟨?_, by decide, by decide, rfl⟩
  intro mu pid resp t h
  match resp with
  | none => exact absurd h (by simp [getTelemetry])
  | some r =>
      unfold getTelemetry at h
      dsimp only at h
      match hrt : r.telemetry with
      | none => rw [hrt] at h; exact absurd h (by simp)
      | some items =>
          rw [hrt] at h
          dsimp only at h
          have ht : t.maxHr = none := by
            have := Option.some.inj h
            rw [← this]
          refine ⟨ht, fun hr => ?_⟩
          unfold enhanceHeartRateWithTelemetry
          dsimp only
          rw [ht]
          rfl

/-- C5 witness: instantiates `c5_max_hr_correction_never_fires` at the
concrete response. -/
theorem c5_witness :
    c5out.maxHr = none ∧
    enhanceHeartRateWithTelemetry (some c5hr) (some c5out) = some c5hr := by
  have h := c5_max_hr_correction_never_fires.1 "m-5" "perf-5" (some c5resp) c5out
    (by decide)
  exact ⟨h.1, h.2 c5hr⟩

/-! ## Lemmas for the metric-value decimal-string claim -/
theorem strip10_spec : ∀ (fuel m : Nat), m < 10 ^ fuel →
    (strip10 fuel m).1 * 10 ^ (strip10 fuel m).2 = m ∧
    (m ≠ 0 → (strip10 fuel m).1 % 10 ≠ 0 ∧ (strip10 fuel m).1 ≠ 0) := by
  intro fuel
  induction fuel with
  | zero =>
      intro m hm
      simp only [pow_zero, Nat.lt_one_iff] at hm
      subst hm
      simp [strip10]
  | succ fuel ih =>
      intro m hm
      by_cases hc : m % 10 = 0 ∧ m ≠ 0
      · have hdiv : m / 10 < 10 ^ fuel := by
          rw [Nat.div_lt_iff_lt_mul (by norm_num)]
          calc m < 10 ^ (fuel + 1) := hm
          _ = 10 ^ fuel * 10 := by rw [pow_succ]
        obtain ⟨h1, h2⟩ := ih (m / 10) hdiv
        have hd10 : m / 10 ≠ 0 := by
          have := hc.1
          have := hc.2
          omega
        obtain ⟨h3, h4⟩ := h2 hd10
        simp only [strip10, if_pos hc]
        refine ⟨?_, fun _ => ⟨h3, h4⟩⟩
        rw [pow_succ, ← mul_assoc, h1, Nat.div_mul_cancel (Nat.dvd_of_mod_eq_zero hc.1)]
      · simp only [strip10, if_neg hc]
        refine ⟨by simp, fun hm0 => ⟨?_, hm0⟩⟩
        intro h10
        exact hc ⟨h10, hm0⟩

theorem natDigitsAux_digits : ∀ (fuel n : Nat), ∀ c ∈ natDigitsAux fuel n,
    c.isDigit = true := by
  intro fuel
  induction fuel with
  | zero => intro n c hc; simp [natDigitsAux] at hc
  | succ fuel ih =>
      intro n c hc
      by_cases h : n < 10
      · simp only [natDigitsAux, if_pos h, List.mem_singleton] at hc
        subst hc
        exact digitChar_isDigit n h
      · simp only [natDigitsAux, if_neg h, List.mem_append, List.mem_singleton] at hc
        rcases hc with hc | hc
        · exact ih _ _ hc
        · subst hc
          exact digitChar_isDigit _ (Nat.mod_lt _ (by norm_num))

theorem natDigitsAux_len : ∀ (fuel n : Nat), 1 ≤ n → n < 10 ^ fuel →
    10 ^ ((natDigitsAux fuel n).length - 1) ≤ n ∧
    n < 10 ^ (natDigitsAux fuel n).length := by
  intro fuel
  induction fuel with
  | zero => intro n h1 h2; simp at h2; omega
  | succ fuel ih =>
      intro n h1 hm
      by_cases h : n < 10
      · simp only [natDigitsAux, if_pos h, List.length_singleton]
        simpa using ⟨h1, h⟩
      · have hd1 : 1 ≤ n / 10 := by omega
        have hd2 : n / 10 < 10 ^ fuel := by
          rw [Nat.div_lt_iff_lt_mul (by norm_num)]
          calc n < 10 ^ (fuel + 1) := hm
          _ = 10 ^ fuel * 10 := by rw [pow_succ]
        obtain ⟨l1, l2⟩ := ih (n / 10) hd1 hd2
        simp only [natDigitsAux, if_neg h, List.length_append, List.length_singleton]
        set k' := (natDigitsAux fuel (n / 10)).length with hk'
        have hk1 : 1 ≤ k' := by
          by_contra hcon
          have : k' = 0 := by omega
          rw [this, pow_zero] at l2
          omega
        constructor
        · have e1 : k' + 1 - 1 = k' - 1 + 1 := by omega
          rw [e1, pow_succ]
          calc 10 ^ (k' - 1) * 10 ≤ n / 10 * 10 := Nat.mul_le_mul_right _ l1
          _ ≤ n := Nat.div_mul_le_self n 10
        · have e2 : n < (n / 10 + 1) * 10 := by omega
          calc n < (n / 10 + 1) * 10 := e2
          _ ≤ 10 ^ k' * 10 := Nat.mul_le_mul_right _ (by omega)
          _ = 10 ^ (k' + 1) := by rw [pow_succ]

theorem natDigits_digits (n : Nat) : ∀ c ∈ natDigits n, c.isDigit = true :=
  fun c hc => natDigitsAux_digits _ _ c hc

theorem natDigits_len (n : Nat) (h : 1 ≤ n) :
    10 ^ ((natDigits n).length - 1) ≤ n ∧ n < 10 ^ (natDigits n).length := by
  refine natDigitsAux_len _ _ h ?_
  calc n < 10 ^ n := Nat.lt_pow_self (by norm_num) n
  _ ≤ 10 ^ (n + 1) := Nat.pow_le_pow_right (by norm_num) (Nat.le_succ n)

theorem hasDotDigitL_append (pre l : List Char) (h : hasDotDigitL l = true) :
    hasDotDigitL (pre ++ l) = true := by
  induction pre with
  | nil => simpa
  | cons a pre' ih =>
      have hl : l ≠ [] := by
        intro he
        rw [he] at h
        simp [hasDotDigitL] at h
      cases hpl : pre' ++ l with
      | nil =>
          rcases List.append_eq_nil.1 hpl with ⟨-, h2⟩
          exact absurd h2 hl
      | cons b tl =>
          show hasDotDigitL (a :: (pre' ++ l)) = true
          rw [hpl]
          simp only [hasDotDigitL, Bool.or_eq_true]
          right
          rw [← hpl]
          exact ih

theorem hasDotDigitL_dot (c : Char) (rest : List Char) (hc : c.isDigit = true) :
    hasDotDigitL ('.' :: c :: rest) = true := by
  simp [hasDotDigitL, hc]

theorem jsNumBody_hasDot (M e : Nat) (hM1 : 1 ≤ M) (hM100 : M < 10 ^ 100)
    (hhi : M < 10 ^ (21 + e)) (hlo : 10 ^ e ≤ 10 ^ 6 * M)
    (hz : (strip10 100 M).2 < e) :
    hasDotDigitL (jsNumCoreBody M e) = true := by
  obtain ⟨hSz, hrest⟩ := strip10_spec 100 M hM100
  obtain ⟨hS10, hS0⟩ := hrest (by omega)
  unfold jsNumCoreBody
  dsimp only
  set S := (strip10 100 M).1 with hS
  set z := (strip10 100 M).2 with hzd
  have hS1 : 1 ≤ S := Nat.one_le_iff_ne_zero.2 hS0
  obtain ⟨hd1, hd2⟩ := natDigits_len S hS1
  set digits := natDigits S with hdig
  set k := digits.length with hk
  have hk1 : 1 ≤ k := by
    by_contra hcon
    have hk0 : k = 0 := by omega
    rw [hk0, pow_zero] at hd2
    omega
  have hn21 : (k : Int) + z - e ≤ 21 := by
    have h1 : 10 ^ (k - 1 + z) ≤ M := by
      calc 10 ^ (k - 1 + z) = 10 ^ (k - 1) * 10 ^ z := by rw [pow_add]
      _ ≤ S * 10 ^ z := Nat.mul_le_mul_right _ hd1
      _ = M := hSz
    have h2 : 10 ^ (k - 1 + z) < 10 ^ (21 + e) := lt_of_le_of_lt h1 hhi
    have h3 : k - 1 + z < 21 + e := (Nat.pow_lt_pow_iff_right (by norm_num)).1 h2
    omega
  have hn6 : (-6 : Int) < (k : Int) + z - e := by
    have h1 : M < 10 ^ (k + z) := by
      calc M = S * 10 ^ z := hSz.symm
      _ < 10 ^ k * 10 ^ z := mul_lt_mul_of_pos_right hd2 (pow_pos (by norm_num) z)
      _ = 10 ^ (k + z) := by rw [pow_add]
    have h2 : 10 ^ e < 10 ^ 6 * 10 ^ (k + z) :=
      lt_of_le_of_lt hlo (mul_lt_mul_of_pos_left h1 (by norm_num))
    rw [← pow_add] at h2
    have h3 : e < 6 + (k + z) := (Nat.pow_lt_pow_iff_right (by norm_num)).1 h2
    omega
  have hnk : (k : Int) + z - e < (k : Int) := by omega
  split_ifs with h1 h2 h3 h4
  · exfalso; omega
  · -- internal decimal point
    have htn : ((k : Int) + z - e).toNat < k := by omega
    have hlen : (digits.drop ((k : Int) + z - e).toNat).length
        = k - ((k : Int) + z - e).toNat := by
      rw [List.length_drop]
    cases hdrop : digits.drop ((k : Int) + z - e).toNat with
    | nil => rw [hdrop] at hlen; simp at hlen; omega
    | cons c rest =>
        have hcmem : c ∈ digits :=
          List.mem_of_mem_drop (by rw [hdrop]; exact List.mem_cons_self _ _)
        have hcd : c.isDigit = true := natDigits_digits S c hcmem
        exact hasDotDigitL_append _ _ (hasDotDigitL_dot c rest hcd)
  · -- leading zeros after the point
    have hdd : ∃ c rest2, List.replicate (-((k : Int) + z - e)).toNat '0' ++ digits
        = c :: rest2 ∧ c.isDigit = true := by
      cases hrep : (-((k : Int) + z - e)).toNat with
      | zero =>
          cases hdg : digits with
          | nil => rw [hdg] at hk; simp at hk; omega
          | cons c rest =>
              refine ⟨c, rest, by simp [hrep, hdg], ?_⟩
              exact natDigits_digits S c (by rw [← hdig, hdg]; exact List.mem_cons_self _ _)
      | succ m =>
          exact ⟨'0', List.replicate m '0' ++ digits, by simp [hrep, List.replicate_succ], by decide⟩
    obtain ⟨c, rest2, heq, hcd⟩ := hdd
    rw [heq]
    simp [hasDotDigitL, hcd]
  · exfalso; omega
  · exfalso; omega

theorem jsNumCore_hasDot (neg : Bool) (M e : Nat) (hM1 : 1 ≤ M) (hM100 : M < 10 ^ 100)
    (hhi : M < 10 ^ (21 + e)) (hlo : 10 ^ e ≤ 10 ^ 6 * M)
    (hz : (strip10 100 M).2 < e) :
    hasDotDigit (jsNumCore neg M e) = true := by
  have hbody := jsNumBody_hasDot M e hM1 hM100 hhi hlo hz
  cases neg with
  | false => simpa [jsNumCore, hasDotDigit]
  | true =>
      show hasDotDigitL ('-' :: jsNumCoreBody M e) = true
      exact hasDotDigitL_append ['-'] _ hbody

mutual
theorem conv_metricLeaves : ∀ v : JVal,
    metricLeaves (convertMetricValuesToStrings v)
      = (metricLeaves v).map convertMetricLeaf
  | .obj fs => by
      simp only [convertMetricValuesToStrings, metricLeaves]
      exact conv_metricLeavesF fs
  | .arr xs => by
      simp only [convertMetricValuesToStrings, metricLeaves]
      exact conv_metricLeavesA xs
  | .num q => by simp [convertMetricValuesToStrings, metricLeaves]
  | .str s => by simp [convertMetricValuesToStrings, metricLeaves]
  | .bool b => by simp [convertMetricValuesToStrings, metricLeaves]
  | .nul => by simp [convertMetricValuesToStrings, metricLeaves]
theorem conv_metricLeavesF : ∀ fs : JFields,
    metricLeavesF (convertMetricFields fs)
      = (metricLeavesF fs).map convertMetricLeaf
  | .nil => by simp [convertMetricFields, metricLeavesF]
  | .fcons k v rest => by
      simp only [convertMetricFields, metricLeavesF, List.map_append]
      by_cases hk : k = "metric_value"
      · simp only [if_pos hk, metricLeavesF, conv_metricLeavesF rest]
        rfl
      · simp only [if_neg hk, conv_metricLeaves v, conv_metricLeavesF rest]
theorem conv_metricLeavesA : ∀ xs : JArr,
    metricLeavesA (convertMetricArr xs)
      = (metricLeavesA xs).map convertMetricLeaf
  | .nil => by simp [convertMetricArr, metricLeavesA]
  | .acons v rest => by
      simp only [convertMetricArr, metricLeavesA, List.map_append,
        conv_metricLeaves v, conv_metricLeavesA rest]
end

theorem hasDotDigit_append_dot0 (x : String) : hasDotDigit (x ++ ".0") = true := by
  obtain ⟨l⟩ := x
  show hasDotDigitL (l ++ ['.', '0']) = true
  exact hasDotDigitL_append l ['.', '0'] (by decide)

/-- C7: metric-value conversion in equipment data.  The tree part:
`filterEquipmentData` rewrites exactly the `metric_value` leaves (after
the `max_power` deletion) through `convertMetricLeaf`.  The leaf part:
an integer number becomes `toString` plus `.0` (always containing a
digit after a dot), a NON-integer number in the positional-notation
range `10^-6 ≤ |q| < 10^21` keeps its decimal string which contains a
dot followed by a digit, and an integral dot-free string gets `.0`
appended.  The range proviso is the correction: below `10^-6` the
ECMAScript `toString` switches to exponential notation (see
`c7_counterexample`).  The three examples of the specification are
confirmed. -/
theorem c7_metric_value_decimal_strings :
    (∀ (fs : JFields) (t : JVal),
        filterEquipmentData (some (.obj fs)) = some t →
        metricLeaves t
          = (metricLeaves (deleteKey "max_power" (.obj fs))).map convertMetricLeaf)
  ∧ (∀ q : ℚ, q.den = 1 →
        convertMetricLeaf (.num q) = .str (jsNumberToString q ++ ".0")
        ∧ hasDotDigit (jsNumberToString q ++ ".0") = true)
  ∧ (∀ q : ℚ, q.den ≠ 1 → expOf q.den ≠ none →
        q.den ≤ 10 ^ 6 * q.num.natAbs → q.num.natAbs < 10 ^ 21 * q.den →
        convertMetricLeaf (.num q) = .str (jsNumberToString q)
        ∧ hasDotDigit (jsNumberToString q) = true)
  ∧ (∀ s : String, metricStringNeedsDecimal s = true →
        convertMetricLeaf (.str s) = .str (s ++ ".0")
        ∧ hasDotDigit (s ++ ".0") = true)
  ∧ convertMetricLeaf (.num 5) = .str "5.0"
  ∧ convertMetricLeaf (.str "5") = .str "5.0"
  ∧ convertMetricLeaf (.num (Rat.divInt 21 4)) = .str "5.25" := by
  refine ⟨?_, ?_, ?_, ?_, by decide, by decide, by decide⟩
  · intro fs t h
    simp only [filterEquipmentData, jvalFalsy, Bool.false_eq_true, if_false,
      Option.some_inj] at h
    subst h
    exact conv_metricLeaves _
  · intro q hden
    refine ⟨by simp [convertMetricLeaf, hden], hasDotDigit_append_dot0 _⟩
  · intro q hden hexp hlo hhi
    refine ⟨by simp [convertMetricLeaf, hden], ?_⟩
    have hq0 : q ≠ 0 := by
      intro h
      rw [h] at hden
      exact hden rfl
    obtain ⟨e, he⟩ : ∃ e, expOf q.den = some e := by
      cases h : expOf q.den with
      | none => exact absurd h hexp
      | some e => exact ⟨e, rfl⟩
    have hdvd : q.den ∣ 10 ^ e := by
      have hp := List.find?_some he
      rw [beq_iff_eq] at hp
      exact Nat.dvd_of_mod_eq_zero hp
    have hnum1 : 1 ≤ q.num.natAbs := Int.natAbs_pos.2 (Rat.num_ne_zero.2 hq0)
    set M := q.num.natAbs * 10 ^ e / q.den with hM
    have hMden : M * q.den = q.num.natAbs * 10 ^ e :=
      Nat.div_mul_cancel (Dvd.dvd.mul_left hdvd _)
    have hM1 : 1 ≤ M := by
      rw [hM, Nat.one_le_div_iff (Rat.den_pos q)]
      calc q.den ≤ 10 ^ e := Nat.le_of_dvd (pow_pos (by norm_num) e) hdvd
      _ ≤ q.num.natAbs * 10 ^ e := Nat.le_mul_of_pos_left _ (by omega)
    have hMhi : M < 10 ^ (21 + e) := by
      have h1 : M * q.den < 10 ^ (21 + e) * q.den := by
        rw [hMden, pow_add]
        calc q.num.natAbs * 10 ^ e < 10 ^ 21 * q.den * 10 ^ e :=
              mul_lt_mul_of_pos_right hhi (pow_pos (by norm_num) e)
        _ = 10 ^ 21 * 10 ^ e * q.den := by ring
      exact lt_of_mul_lt_mul_right h1 (Nat.zero_le _)
    have hMlo : 10 ^ e ≤ 10 ^ 6 * M := by
      have h1 : 10 ^ e * q.den ≤ 10 ^ 6 * M * q.den := by
        calc 10 ^ e * q.den ≤ 10 ^ e * (10 ^ 6 * q.num.natAbs) :=
              Nat.mul_le_mul_left _ hlo
        _ = 10 ^ 6 * (q.num.natAbs * 10 ^ e) := by ring
        _ = 10 ^ 6 * (M * q.den) := by rw [hMden]
        _ = 10 ^ 6 * M * q.den := by ring
      exact Nat.le_of_mul_le_mul_right h1 (Rat.den_pos q)
    have hM100 : M < 10 ^ 100 := by
      calc M < 10 ^ (21 + e) := hMhi
      _ ≤ 10 ^ 100 := by
          refine Nat.pow_le_pow_right (by norm_num) ?_
          have := List.mem_range.1 (List.mem_of_find?_eq_some he)
          omega
    have hzlt : (strip10 100 M).2 < e := by
      by_contra hcon
      push_neg at hcon
      obtain ⟨hSz, -⟩ := strip10_spec 100 M hM100
      have key : q.num.natAbs = q.den * ((strip10 100 M).1 * 10 ^ ((strip10 100 M).2 - e)) := by
        have h1 : M * q.den = q.num.natAbs * 10 ^ e := hMden
        rw [← hSz] at h1
        have hz10 : (10 : ℕ) ^ (strip10 100 M).2
            = 10 ^ ((strip10 100 M).2 - e) * 10 ^ e := by
          rw [← pow_add, Nat.sub_add_cancel hcon]
        rw [hz10] at h1
        have h2 : q.den * ((strip10 100 M).1 * 10 ^ ((strip10 100 M).2 - e)) * 10 ^ e
            = q.num.natAbs * 10 ^ e := by rw [← h1]; ring
        exact (Nat.eq_of_mul_eq_mul_right (pow_pos (by norm_num) e) h2).symm
      have hdd : q.den ∣ q.num.natAbs := ⟨_, key⟩
      have hcop : Nat.gcd q.den q.num.natAbs = 1 := (q.reduced).symm
      have h3 := Nat.dvd_gcd (dvd_refl q.den) hdd
      rw [hcop] at h3
      exact hden (Nat.dvd_one.mp h3)
    show hasDotDigit (jsNumberToString q) = true
    unfold jsNumberToString
    rw [if_neg hq0]
    rw [he]
    dsimp only
    rw [← hM]
    exact jsNumCore_hasDot _ M e hM1 hM100 hMhi hMlo hzlt
  · intro s hs
    exact ⟨by simp [convertMetricLeaf, hs], hasDotDigit_append_dot0 _⟩

/-- C7 counterexample: the numeric `metric_value` leaf `5e-7`
(`0.0000005`) is converted to the string `"5e-7"`, which contains no
dot at all, refuting the unconditional decimal-string invariant. -/
theorem c7_counterexample :
    convertMetricValuesToStrings
        (.obj (.fcons "metric_value" (.num (Rat.divInt 1 2000000)) .nil))
      = .obj (.fcons "metric_value" (.str "5e-7") .nil)
    ∧ hasDotDigit "5e-7" = false
    ∧ filterEquipmentData (some (.obj (.fcons "max_power" (.num 300)
        (.fcons "metric_value" (.num (Rat.divInt 1 2000000)) .nil))))
      = some (.obj (.fcons "metric_value" (.str "5e-7") .nil)) := by
  exact ⟨by decide, by decide, by decide⟩

/-- C7 witness: the theorem applied to a concrete equipment-data
object, to `5.25`, to the string `"5"` and to the integer `5`. -/
theorem c7_witness :
    (metricLeaves c7t0
      = (metricLeaves (deleteKey "max_power" (.obj c7fs0))).map convertMetricLeaf)
    ∧ hasDotDigit (jsNumberToString (Rat.divInt 21 4)) = true
    ∧ (convertMetricLeaf (.str "5") = .str ("5" ++ ".0")
        ∧ hasDotDigit ("5" ++ ".0") = true)
    ∧ hasDotDigit (jsNumberToString 5 ++ ".0") = true :=
  ⟨c7_metric_value_decimal_strings.1 c7fs0 c7t0 (by decide),
   (c7_metric_value_decimal_strings.2.2.1 (Rat.divInt 21 4)
      (by decide) (by decide) (by decide) (by decide)).2,
   c7_metric_value_decimal_strings.2.2.2.1 "5" (by decide),
   (c7_metric_value_decimal_strings.2.1 5 (by decide)).2⟩

/-! ## Theorems about the pipeline -/
/-- C3: the past-booking filter keeps exactly the bookings whose class
start time is absent (falsy, hence eligible) or parses to a time less
than or equal to the current time; future-dated bookings — and
unparsable start times, whose `NaN` comparison is false — are
excluded. -/
theorem c3_past_filter_keeps_absent_or_past :
    ∀ (now : Int) (bs : List BookingV2) (b : BookingV2),
      b ∈ filterPastBookings now bs ↔
        b ∈ bs ∧ (startsField b = none
          ∨ ∃ ms, startsField b = some (.valid ms) ∧ ms ≤ now) := by
  intro now bs b
  rw [filterPastBookings, List.mem_filter]
  refine and_congr_right fun _ => ?_
  unfold pastBookingKeep
  cases hs : startsField b with
  | none => simp
  | some d =>
      cases d with
      | invalid => simp
      | valid ms => simp

theorem processBookings_calorie (perfD : List (String × PerfSummary))
    (telD : List (String × Option Telemetry))
    (uuidD : List (String × Option String)) :
    ∀ (l : List BookingV2) (w : Workout),
      w ∈ processBookings perfD telD uuidD l → calorieSkip w = false := by
  intro l
  induction l with
  | nil => intro w hw; simp [processBookings] at hw
  | cons b rest ih =>
      intro w hw
      simp only [processBookings] at hw
      split at hw
      · exact ih w hw
      · split at hw
        · exact ih w hw
        · rename_i w' heq
          split at hw
          · exact ih w hw
          · rename_i hskip
            rcases List.mem_cons.1 hw with h | h
            · subst h
              simpa using hskip
            · exact ih w h

/-- C4: every workout returned by `getWorkouts` has `calories_burned`
absent or at least `100` (the orchestrator loop `continue`s past
low-calorie workouts after assembly), and the assembler itself never
filters: it copies `performanceSummary.calories_burned` through
unchanged whenever it returns at all. -/
theorem c4_calorie_floor :
    (∀ (now : Int) (bookings : List BookingV2)
        (fetchPerf : String → Option PerfSummary)
        (fetchTel : String → Option Telemetry)
        (uuidMapping : List (String × Option String)) (w : Workout),
        w ∈ getWorkouts now bookings fetchPerf fetchTel uuidMapping →
        w.calories_burned = none ∨ ∃ c, w.calories_burned = some c ∧ 100 ≤ c)
  ∧ (∀ (b : BookingV2) (ps : PerfSummary) (tel : Option Telemetry)
        (classUuid : Option String) (w : Workout),
        assembleWorkout b ps tel classUuid = some w →
        w.calories_burned = ps.calories_burned) := by
  constructor
  · intro now bookings fp ft um w hw
    simp only [getWorkouts] at hw
    have h := processBookings_calorie _ _ _ _ w hw
    unfold calorieSkip at h
    cases hc : w.calories_burned with
    | none => exact Or.inl rfl
    | some c =>
        right
        refine ⟨c, rfl, ?_⟩
        rw [hc] at h
        simp only [decide_eq_false_iff_not, not_lt] at h
        exact h
  · intro b ps tel cu w hw
    unfold assembleWorkout at hw
    cases he : enhanceTelemetryWithTimestamps tel (startsField b) with
    | none => rw [he] at hw; exact absurd hw (by simp)
    | some enhTel =>
        rw [he] at hw
        simp only [Option.some_inj] at hw
        rw [← hw]

/-- C4 witness: the theorem applied to a concrete one-booking run and
to the concrete assembly producing `c4w`. -/
theorem c4_witness :
    (c4w.calories_burned = none ∨ ∃ c, c4w.calories_burned = some c ∧ 100 ≤ c)
    ∧ c4w.calories_burned = psEmpty.calories_burned :=
  ⟨c4_calorie_floor.1 0 [c4book] (fun _ => none) (fun _ => none) [] c4w (by decide),
   c4_calorie_floor.2 c4book psEmpty none none c4w (by decide)⟩

theorem recGet_recSet {α : Type} :
    ∀ (r : List (String × α)) (k k' : String) (v : α),
      recGet (recSet r k v) k' = if k = k' then some v else recGet r k' := by
  intro r
  induction r with
  | nil => intro k k' v; simp [recSet, recGet]
  | cons p rest ih =>
      intro k k' v
      simp only [recSet]
      by_cases hp : p.1 = k
      · rw [if_pos hp]
        by_cases hk : k = k'
        · simp [recGet, hk]
        · have hpk' : p.1 ≠ k' := by rw [hp]; exact hk
          simp [recGet, hk, hpk']
      · rw [if_neg hp]
        by_cases hpk : p.1 = k'
        · have hkk : k ≠ k' := fun he => hp (by rw [he, hpk])
          simp [recGet, hpk, hkk]
        · simp [recGet, hpk, ih]

theorem foldl_recSet_get {α : Type} (g : String → α) :
    ∀ (ids : List String) (acc : List (String × α)) (k : String),
      recGet (ids.foldl (fun a i => recSet a i (g i)) acc) k
        = if k ∈ ids then some (g k) else recGet acc k := by
  intro ids
  induction ids with
  | nil => intro acc k; simp
  | cons i rest ih =>
      intro acc k
      rw [List.foldl_cons, ih]
      by_cases hr : k ∈ rest
      · simp [hr, List.mem_cons]
      · rw [if_neg hr, recGet_recSet]
        by_cases hik : i = k
        · simp [hik, List.mem_cons]
        · have hnm : ¬ k ∈ i :: rest := by
            simp only [List.mem_cons, not_or]
            exact ⟨fun h => hik h.symm, hr⟩
          simp [hik, hnm]

theorem foldl_recSetOpt_get {α : Type} (f : String → Option α) :
    ∀ (ids : List String) (acc : List (String × α)) (k : String),
      recGet (ids.foldl (fun a i =>
          match f i with
          | some d => recSet a i d
          | none => a) acc) k
        = if k ∈ ids ∧ (f k).isSome then f k else recGet acc k := by
  intro ids
  induction ids with
  | nil => intro acc k; simp
  | cons i rest ih =>
      intro acc k
      rw [List.foldl_cons, ih]
      by_cases hr : k ∈ rest ∧ (f k).isSome
      · rw [if_pos hr, if_pos ⟨List.mem_cons_of_mem i hr.1, hr.2⟩]
      · rw [if_neg hr]
        cases hf : f i with
        | some d =>
            simp only [hf]
            rw [recGet_recSet]
            by_cases hik : i = k
            · subst hik
              rw [if_pos rfl, if_pos ⟨List.mem_cons_self i rest, by rw [hf]; rfl⟩, hf]
            · rw [if_neg hik]
              have hno : ¬ (k ∈ i :: rest ∧ (f k).isSome) := by
                rintro ⟨hm, hs⟩
                rcases List.mem_cons.1 hm with he | hm2
                · exact hik he.symm
                · exact hr ⟨hm2, hs⟩
              rw [if_neg hno]
        | none =>
            simp only [hf]
            have hno : ¬ (k ∈ i :: rest ∧ (f k).isSome) := by
              rintro ⟨hm, hs⟩
              rcases List.mem_cons.1 hm with he | hm2
              · rw [he, hf] at hs
                simp at hs
              · exact hr ⟨hm2, hs⟩
            rw [if_neg hno]

/-- C8: a failing individual fetch never fails the batch, and the
null-vs-omit asymmetry holds per call site: a failing identifier is
absent from the performance-summary record but present with value
`null` in the telemetry record, while every identifier's successful
result is stored in both. -/
theorem c8_fanout_failure_isolation :
    ∀ (fetchPerf : String → Option PerfSummary) (fetchTel : String → Option Telemetry)
      (ids : List String) (bad : String),
      bad ∈ ids → fetchPerf bad = none → fetchTel bad = none →
      recGet (getPerformanceSummariesConcurrent fetchPerf ids) bad = none
      ∧ recGet (getTelemetryConcurrent fetchTel ids) bad = some none
      ∧ (∀ i ∈ ids, recGet (getTelemetryConcurrent fetchTel ids) i = some (fetchTel i))
      ∧ (∀ i ∈ ids, ∀ d, fetchPerf i = some d →
          recGet (getPerformanceSummariesConcurrent fetchPerf ids) i = some d) := by
  intro fp ft ids bad hmem hfp hft
  refine ⟨?_, ?_, ?_, ?_⟩
  · rw [getPerformanceSummariesConcurrent, foldl_recSetOpt_get]
    rw [if_neg]
    · rfl
    · rintro ⟨-, hs⟩
      rw [hfp] at hs
      simp at hs
  · rw [getTelemetryConcurrent, foldl_recSet_get, if_pos hmem, hft]
  · intro i hi
    rw [getTelemetryConcurrent, foldl_recSet_get, if_pos hi]
  · intro i hi d hd
    rw [getPerformanceSummariesConcurrent, foldl_recSetOpt_get,
      if_pos ⟨hi, by rw [hd]; rfl⟩, hd]

/-- C8 witness: the theorem applied to two identifiers of which `"b"`
fails in both fan-outs. -/
theorem c8_witness :
    recGet (getPerformanceSummariesConcurrent
        (fun i => if i = "a" then some c8ps else none) ["a", "b"]) "b" = none
    ∧ recGet (getTelemetryConcurrent
        (fun i => if i = "a" then some c8tel0 else none) ["a", "b"]) "b" = some none
    ∧ recGet (getTelemetryConcurrent
        (fun i => if i = "a" then some c8tel0 else none) ["a", "b"]) "a"
        = some (some c8tel0)
    ∧ recGet (getPerformanceSummariesConcurrent
        (fun i => if i = "a" then some c8ps else none) ["a", "b"]) "a" = some c8ps := by
  obtain ⟨h1, h2, h3, h4⟩ := c8_fanout_failure_isolation
    (fun i => if i = "a" then some c8ps else none)
    (fun i => if i = "a" then some c8tel0 else none)
    ["a", "b"] "b" (by decide) (by decide) (by decide)
  exact ⟨h1, h2, by simpa using h3 "a" (by decide), h4 "a" (by decide) c8ps (by decide)⟩

/-! ## Frame lemmas for the heap model -/
theorem lookupH_alloc_lt (h : Heap) (o : HFields) {i : Nat}
    (hi : i < h.objs.length) : lookupH (allocH h o).1 i = lookupH h i := by
  simp only [lookupH, allocH]
  rw [List.getElem?_append]
  rw [if_pos hi]

theorem lookupH_alloc_self (h : Heap) (o : HFields) :
    lookupH (allocH h o).1 (allocH h o).2 = some o := by
  simp [lookupH, allocH]

theorem allocH_len (h : Heap) (o : HFields) :
    (allocH h o).1.objs.length = h.objs.length + 1 := by
  simp [allocH]

theorem lookupH_none_of_ge (h : Heap) {r : Nat} (hr : h.objs.length ≤ r) :
    lookupH h r = none := by
  simp [lookupH, List.getElem?_eq_none hr]

theorem lookupH_lt_of_some (h : Heap) {r : Nat} {o : HFields}
    (hl : lookupH h r = some o) : r < h.objs.length := by
  by_contra hge
  rw [lookupH_none_of_ge h (by omega)] at hl
  exact Option.noConfusion hl

theorem lookupH_write_ne (h : Heap) (r : Nat) (o : HFields) {i : Nat}
    (hir : i ≠ r) : lookupH (writeH h r o) i = lookupH h i := by
  simp only [lookupH, writeH]
  exact List.getElem?_set_ne (by omega)

theorem lookupH_write_self (h : Heap) {r : Nat} (o : HFields)
    (hr : r < h.objs.length) : lookupH (writeH h r o) r = some o := by
  simp [lookupH, writeH, List.getElem?_set_self, hr]

theorem writeH_len (h : Heap) (r : Nat) (o : HFields) :
    (writeH h r o).objs.length = h.objs.length := by
  simp [writeH]

theorem setFieldH_frame (h : Heap) (r : Nat) (k : String) (v : HVal) {i : Nat}
    (hir : i ≠ r) : lookupH (setFieldH h r k v) i = lookupH h i := by
  unfold setFieldH
  cases lookupH h r with
  | none => rfl
  | some o => exact lookupH_write_ne h r _ hir

theorem setFieldH_len (h : Heap) (r : Nat) (k : String) (v : HVal) :
    (setFieldH h r k v).objs.length = h.objs.length := by
  unfold setFieldH
  cases lookupH h r with
  | none => rfl
  | some o => exact writeH_len h r _

theorem delFieldH_frame (h : Heap) (r : Nat) (k : String) {i : Nat}
    (hir : i ≠ r) : lookupH (delFieldH h r k) i = lookupH h i := by
  unfold delFieldH
  cases lookupH h r with
  | none => rfl
  | some o => exact lookupH_write_ne h r _ hir

theorem delFieldH_len (h : Heap) (r : Nat) (k : String) :
    (delFieldH h r k).objs.length = h.objs.length := by
  unfold delFieldH
  cases lookupH h r with
  | none => rfl
  | some o => exact writeH_len h r _

theorem HClosedAbove_full (h : Heap) : HClosedAbove h.objs.length h := by
  intro r o hn hl
  have := lookupH_lt_of_some h hl
  omega

theorem fieldGet_GE {n : Nat} : ∀ {o : HFields} {k : String} {v : HVal},
    hfieldsGE n o = true → fieldGet o k = some v → hvalGE n v = true := by
  intro o
  induction o with
  | nil => intro k v _ hg; simp [fieldGet] at hg
  | fcons k' v' rest ih =>
      intro k v ho hg
      simp only [hfieldsGE, Bool.and_eq_true] at ho
      simp only [fieldGet] at hg
      by_cases hk : k' = k
      · rw [if_pos hk] at hg
        cases hg
        exact ho.1
      · rw [if_neg hk] at hg
        exact ih ho.2 hg

theorem fieldSet_GE {n : Nat} : ∀ {o : HFields} {k : String} {v : HVal},
    hfieldsGE n o = true → hvalGE n v = true →
    hfieldsGE n (fieldSet o k v) = true := by
  intro o
  induction o with
  | nil => intro k v _ hv; simp [fieldSet, hfieldsGE, hvalGE, hv]
  | fcons k' v' rest ih =>
      intro k v ho hv
      simp only [hfieldsGE, Bool.and_eq_true] at ho
      simp only [fieldSet]
      by_cases hk : k' = k
      · rw [if_pos hk]
        simp [hfieldsGE, hv, ho.2]
      · rw [if_neg hk]
        simp [hfieldsGE, ho.1, ih ho.2 hv]

theorem fieldDel_GE {n : Nat} : ∀ {o : HFields} {k : String},
    hfieldsGE n o = true → hfieldsGE n (fieldDel o k) = true := by
  intro o
  induction o with
  | nil => intro k _; simp [fieldDel, hfieldsGE]
  | fcons k' v' rest ih =>
      intro k ho
      simp only [hfieldsGE, Bool.and_eq_true] at ho
      simp only [fieldDel]
      by_cases hk : k' = k
      · rw [if_pos hk]
        exact ih ho.2
      · rw [if_neg hk]
        simp [hfieldsGE, ho.1, ih ho.2]

theorem HClosed_setField {n : Nat} {h : Heap} {r : Nat} {k : String} {v : HVal}
    (hc : HClosedAbove n h) (hv : hvalGE n v = true) :
    HClosedAbove n (setFieldH h r k v) := by
  intro r' o' hn hl
  by_cases hrr : r' = r
  · subst hrr
    unfold setFieldH at hl
    cases hlo : lookupH h r' with
    | none => rw [hlo] at hl; exact hc r' o' hn hl
    | some o =>
        rw [hlo] at hl
        rw [lookupH_write_self h _ (lookupH_lt_of_some h hlo)] at hl
        cases hl
        exact fieldSet_GE (hc r' o hn hlo) hv
  · rw [setFieldH_frame h r k v hrr] at hl
    exact hc r' o' hn hl

theorem HClosed_delField {n : Nat} {h : Heap} {r : Nat} {k : String}
    (hc : HClosedAbove n h) : HClosedAbove n (delFieldH h r k) := by
  intro r' o' hn hl
  by_cases hrr : r' = r
  · subst hrr
    unfold delFieldH at hl
    cases hlo : lookupH h r' with
    | none => rw [hlo] at hl; exact hc r' o' hn hl
    | some o =>
        rw [hlo] at hl
        rw [lookupH_write_self h _ (lookupH_lt_of_some h hlo)] at hl
        cases hl
        exact fieldDel_GE (hc r' o hn hlo)
  · rw [delFieldH_frame h r k hrr] at hl
    exact hc r' o' hn hl

theorem HClosed_alloc {n : Nat} {h : Heap} {o : HFields}
    (hc : HClosedAbove n h) (ho : hfieldsGE n o = true) :
    HClosedAbove n (allocH h o).1 := by
  intro r' o' hn hl
  by_cases hlt : r' < h.objs.length
  · rw [lookupH_alloc_lt h o hlt] at hl
    exact hc r' o' hn hl
  · by_cases heq : r' = h.objs.length
    · subst heq
      have hself : lookupH (allocH h o).1 h.objs.length = some o :=
        lookupH_alloc_self h o
      rw [hself] at hl
      cases hl
      exact ho
    · rw [lookupH_none_of_ge _ (by rw [allocH_len]; omega)] at hl
      exact Option.noConfusion hl

theorem convertMetricLeafH_props {n : Nat} {h : Heap} {r : Nat} (k : String) (v : HVal)
    (hc : HClosedAbove n h) (hr : n ≤ r) :
    (∀ i, i < n → lookupH (convertMetricLeafH h r k v) i = lookupH h i)
    ∧ (convertMetricLeafH h r k v).objs.length = h.objs.length
    ∧ HClosedAbove n (convertMetricLeafH h r k v) := by
  cases v with
  | prim p =>
      cases p with
      | num q =>
          simp only [convertMetricLeafH]
          exact ⟨fun i hi => setFieldH_frame h r _ _ (by omega),
                 setFieldH_len h r _ _, HClosed_setField hc (by simp [hvalGE])⟩
      | str s =>
          simp only [convertMetricLeafH]
          by_cases hm : metricStringNeedsDecimal s = true
          · rw [if_pos hm]
            exact ⟨fun i hi => setFieldH_frame h r _ _ (by omega),
                   setFieldH_len h r _ _, HClosed_setField hc (by simp [hvalGE])⟩
          · rw [if_neg hm]
            exact ⟨fun i _ => rfl, rfl, hc⟩
      | bool b => exact ⟨fun i _ => rfl, rfl, hc⟩
      | nul => exact ⟨fun i _ => rfl, rfl, hc⟩
      | dateStr d => exact ⟨fun i _ => rfl, rfl, hc⟩
  | ref r' => exact ⟨fun i _ => rfl, rfl, hc⟩
  | arr xs => exact ⟨fun i _ => rfl, rfl, hc⟩

theorem convGoH_frame : ∀ (fuel : Nat) (h : Heap) (arg : HConvArg) (n : Nat),
    HClosedAbove n h →
    (match arg with
     | .val v => hvalGE n v = true
     | .ents r o => n ≤ r ∧ hfieldsGE n o = true
     | .list xs => hlistGE n xs = true) →
    (∀ i, i < n → lookupH (convGoH fuel h arg) i = lookupH h i)
    ∧ (convGoH fuel h arg).objs.length = h.objs.length
    ∧ HClosedAbove n (convGoH fuel h arg) := by
  intro fuel
  induction fuel with
  | zero =>
      intro h arg n hc ha
      exact ⟨fun i _ => rfl, rfl, hc⟩
  | succ fuel ih =>
      intro h arg n hc ha
      cases arg with
      | val v =>
          cases v with
          | prim p => exact ⟨fun i _ => rfl, rfl, hc⟩
          | ref r =>
              have hr : n ≤ r := by simpa [hvalGE] using ha
              simp only [convGoH]
              cases hlo : lookupH h r with
              | none => exact ⟨fun i _ => rfl, by simp, hc⟩
              | some o => exact ih h (.ents r o) n hc ⟨hr, hc r o hr hlo⟩
          | arr xs =>
              simp only [convGoH]
              exact ih h (.list xs) n hc (by simpa [hvalGE] using ha)
      | ents r o =>
          cases o with
          | nil => exact ⟨fun i _ => rfl, rfl, hc⟩
          | fcons k v rest =>
              obtain ⟨hr, hfs⟩ := ha
              simp only [hfieldsGE, Bool.and_eq_true] at hfs
              obtain ⟨hv, hrest⟩ := hfs
              simp only [convGoH]
              by_cases hk : k = "metric_value"
              · simp only [if_pos hk]
                obtain ⟨f1, l1, c1⟩ := convertMetricLeafH_props (n := n) k v hc hr
                obtain ⟨f2, l2, c2⟩ := ih _ (.ents r rest) n c1 ⟨hr, hrest⟩
                exact ⟨fun i hi => (f2 i hi).trans (f1 i hi), by rw [l2, l1], c2⟩
              · simp only [if_neg hk]
                cases v with
                | prim p => exact ih h (.ents r rest) n hc ⟨hr, hrest⟩
                | ref r' =>
                    obtain ⟨f1, l1, c1⟩ := ih h (.val (.ref r')) n hc hv
                    obtain ⟨f2, l2, c2⟩ := ih _ (.ents r rest) n c1 ⟨hr, hrest⟩
                    exact ⟨fun i hi => (f2 i hi).trans (f1 i hi), by rw [l2, l1], c2⟩
                | arr xs =>
                    obtain ⟨f1, l1, c1⟩ := ih h (.val (.arr xs)) n hc hv
                    obtain ⟨f2, l2, c2⟩ := ih _ (.ents r rest) n c1 ⟨hr, hrest⟩
                    exact ⟨fun i hi => (f2 i hi).trans (f1 i hi), by rw [l2, l1], c2⟩
      | list xs =>
          cases xs with
          | nil => exact ⟨fun i _ => rfl, rfl, hc⟩
          | cons v rest =>
              simp only [hlistGE, Bool.and_eq_true] at ha
              simp only [convGoH]
              obtain ⟨f1, l1, c1⟩ := ih h (.val v) n hc ha.1
              obtain ⟨f2, l2, c2⟩ := ih _ (.list rest) n c1 ha.2
              exact ⟨fun i hi => (f2 i hi).trans (f1 i hi), by rw [l2, l1], c2⟩

theorem copyGo_spec : ∀ (fuel : Nat) (h : Heap) (carg : CopyArg) (n : Nat),
    n ≤ h.objs.length → HClosedAbove n h →
    ∀ h' res, copyGo fuel h carg = some (h', res) →
      (∀ i, i < h.objs.length → lookupH h' i = lookupH h i)
      ∧ h.objs.length ≤ h'.objs.length
      ∧ HClosedAbove n h'
      ∧ (match res with
         | .v v => hvalGE n v = true
         | .vs xs => hlistGE n xs = true
         | .fs o => hfieldsGE n o = true) := by
  intro fuel
  induction fuel with
  | zero =>
      intro h carg n hn hc h' res heq
      simp [copyGo] at heq
  | succ fuel ih =>
      intro h carg n hn hc h' res heq
      cases carg with
      | one v =>
          cases v with
          | prim p =>
              simp only [copyGo] at heq
              cases heq
              exact ⟨fun i _ => rfl, le_refl _, hc, by simp [hvalGE]⟩
          | arr xs =>
              simp only [copyGo] at heq
              cases hrec : copyGo fuel h (.many xs) with
              | none => rw [hrec] at heq; simp at heq
              | some pr =>
                  obtain ⟨h1, res1⟩ := pr
                  rw [hrec] at heq
                  cases res1 with
                  | v y => simp at heq
                  | fs o' => simp at heq
                  | vs ys =>
                      obtain ⟨f, l, c, g⟩ := ih h (.many xs) n hn hc h1 (.vs ys) hrec
                      cases heq
                      exact ⟨f, l, c, by simpa [hvalGE] using g⟩
          | ref r =>
              simp only [copyGo] at heq
              split at heq
              · cases heq
                exact ⟨fun i _ => rfl, le_refl _, hc, by simp [hvalGE, primTruthy]⟩
              · rename_i o hlo
                split at heq
                · rename_i h1 o' hrec
                  obtain ⟨f, l, c, g⟩ := ih h (.fields o) n hn hc h1 (.fs o') hrec
                  cases heq
                  refine ⟨?_, ?_, HClosed_alloc c g, ?_⟩
                  · intro i hi
                    rw [lookupH_alloc_lt h1 o' (by omega), f i hi]
                  · rw [allocH_len]
                    omega
                  · simp only [hvalGE]
                    have hle : n ≤ (allocH h1 o').2 := by
                      simp only [allocH]
                      omega
                    simpa using hle
                · simp at heq
      | many xs =>
          cases xs with
          | nil =>
              simp only [copyGo] at heq
              cases heq
              exact ⟨fun i _ => rfl, le_refl _, hc, by simp [hlistGE]⟩
          | cons x xs' =>
              simp only [copyGo] at heq
              cases hrec1 : copyGo fuel h (.one x) with
              | none => rw [hrec1] at heq; simp at heq
              | some pr1 =>
                  obtain ⟨h1, res1⟩ := pr1
                  rw [hrec1] at heq
                  cases res1 with
                  | vs ys => simp at heq
                  | fs o' => simp at heq
                  | v y =>
                      dsimp only at heq
                      cases hrec2 : copyGo fuel h1 (.many xs') with
                      | none => rw [hrec2] at heq; simp at heq
                      | some pr2 =>
                          obtain ⟨h2, res2⟩ := pr2
                          rw [hrec2] at heq
                          cases res2 with
                          | v y2 => simp at heq
                          | fs o' => simp at heq
                          | vs ys =>
                              obtain ⟨f1, l1, c1, g1⟩ :=
                                ih h (.one x) n hn hc h1 (.v y) hrec1
                              obtain ⟨f2, l2, c2, g2⟩ :=
                                ih h1 (.many xs') n (by omega) c1 h2 (.vs ys) hrec2
                              cases heq
                              refine ⟨?_, by omega, c2, ?_⟩
                              · intro i hi
                                rw [f2 i (by omega), f1 i hi]
                              · simp only [hlistGE, Bool.and_eq_true]
                                exact ⟨g1, g2⟩
      | fields o =>
          cases o with
          | nil =>
              simp only [copyGo] at heq
              cases heq
              exact ⟨fun i _ => rfl, le_refl _, hc, by simp [hfieldsGE]⟩
          | fcons k x rest =>
              simp only [copyGo] at heq
              cases hrec1 : copyGo fuel h (.one x) with
              | none => rw [hrec1] at heq; simp at heq
              | some pr1 =>
                  obtain ⟨h1, res1⟩ := pr1
                  rw [hrec1] at heq
                  cases res1 with
                  | vs ys => simp at heq
                  | fs o' => simp at heq
                  | v y =>
                      dsimp only at heq
                      cases hrec2 : copyGo fuel h1 (.fields rest) with
                      | none => rw [hrec2] at heq; simp at heq
                      | some pr2 =>
                          obtain ⟨h2, res2⟩ := pr2
                          rw [hrec2] at heq
                          cases res2 with
                          | v y2 => simp at heq
                          | vs ys => simp at heq
                          | fs rest' =>
                              obtain ⟨f1, l1, c1, g1⟩ :=
                                ih h (.one x) n hn hc h1 (.v y) hrec1
                              obtain ⟨f2, l2, c2, g2⟩ :=
                                ih h1 (.fields rest) n (by omega) c1 h2 (.fs rest') hrec2
                              cases heq
                              refine ⟨?_, by omega, c2, ?_⟩
                              · intro i hi
                                rw [f2 i (by omega), f1 i hi]
                              · simp only [hfieldsGE, Bool.and_eq_true]
                                exact ⟨g1, g2⟩

theorem enhanceHRH_frame (h : Heap) (hr tel : Option HVal) :
    (∀ i, i < h.objs.length →
      lookupH (enhanceHeartRateWithTelemetryH h hr tel).1 i = lookupH h i)
    ∧ h.objs.length ≤ (enhanceHeartRateWithTelemetryH h hr tel).1.objs.length := by
  cases hr with
  | none => exact ⟨fun i _ => rfl, le_refl _⟩
  | some hv =>
      simp only [enhanceHeartRateWithTelemetryH]
      by_cases ht : hvalTruthy hv = true
      · rw [if_pos ht]
        cases hv with
        | prim p => exact ⟨fun i _ => rfl, le_refl _⟩
        | arr xs => exact ⟨fun i _ => rfl, le_refl _⟩
        | ref r =>
            dsimp only
            have hal : ∀ i, i < h.objs.length →
                lookupH (allocH h ((lookupH h r).getD .nil)).1 i = lookupH h i :=
              fun i hi => lookupH_alloc_lt _ _ hi
            have hallen : h.objs.length ≤
                (allocH h ((lookupH h r).getD .nil)).1.objs.length := by
              rw [allocH_len]; omega
            cases tel with
            | none => exact ⟨hal, hallen⟩
            | some tv =>
                cases tv with
                | prim p => exact ⟨hal, hallen⟩
                | arr xs => exact ⟨hal, hallen⟩
                | ref tr =>
                    dsimp only
                    cases hg : getFieldH (allocH h ((lookupH h r).getD .nil)).1 tr "maxHr" with
                    | none => exact ⟨hal, hallen⟩
                    | some mv =>
                        dsimp only
                        by_cases hmv : hvalTruthy mv = true
                        · rw [if_pos hmv]
                          constructor
                          · intro i hi
                            rw [setFieldH_frame _ _ _ _ (by simp [allocH]; omega), hal i hi]
                          · rw [setFieldH_len]
                            exact hallen
                        · rw [if_neg hmv]
                          exact ⟨hal, hallen⟩
      · rw [if_neg ht]
        exact ⟨fun i _ => rfl, le_refl _⟩

theorem filterEquipmentDataH_frame (fuel : Nat) (h : Heap) (ed : Option HVal) :
    (∀ i, i < h.objs.length →
      lookupH (filterEquipmentDataH fuel h ed).1 i = lookupH h i)
    ∧ h.objs.length ≤ (filterEquipmentDataH fuel h ed).1.objs.length := by
  cases ed with
  | none => exact ⟨fun i _ => rfl, le_refl _⟩
  | some v =>
      simp only [filterEquipmentDataH]
      by_cases ht : hvalTruthy v = true
      · rw [if_pos ht]
        cases hcp : copyGo fuel h (.one v) with
        | none => exact ⟨fun i _ => rfl, le_refl _⟩
        | some pr =>
            obtain ⟨h1, res⟩ := pr
            cases res with
            | vs xs =>
                dsimp only
                obtain ⟨f, l, -, -⟩ := copyGo_spec fuel h (.one v) h.objs.length
                  (le_refl _) (HClosedAbove_full h) h1 (.vs xs) hcp
                exact ⟨f, l⟩
            | fs o =>
                dsimp only
                obtain ⟨f, l, -, -⟩ := copyGo_spec fuel h (.one v) h.objs.length
                  (le_refl _) (HClosedAbove_full h) h1 (.fs o) hcp
                exact ⟨f, l⟩
            | v c =>
                obtain ⟨f, l, c1, g⟩ := copyGo_spec fuel h (.one v) h.objs.length
                  (le_refl _) (HClosedAbove_full h) h1 (.v c) hcp
                cases c with
                | prim p =>
                    dsimp only
                    obtain ⟨f3, l3, -⟩ := convGoH_frame fuel h1 (.val (.prim p))
                      h.objs.length c1 (by simp [hvalGE])
                    exact ⟨fun i hi => (f3 i (by omega)).trans (f i hi), by omega⟩
                | arr xs =>
                    dsimp only
                    obtain ⟨f3, l3, -⟩ := convGoH_frame fuel h1 (.val (.arr xs))
                      h.objs.length c1 (by simpa [hvalGE] using g)
                    exact ⟨fun i hi => (f3 i (by omega)).trans (f i hi), by omega⟩
                | ref rc =>
                    dsimp only
                    have hrc : h.objs.length ≤ rc := by simpa [hvalGE] using g
                    have f2 : ∀ i, i < h.objs.length →
                        lookupH (delFieldH h1 rc "max_power") i = lookupH h1 i :=
                      fun i hi => delFieldH_frame h1 rc _ (by omega)
                    have l2 := delFieldH_len h1 rc "max_power"
                    have c2 : HClosedAbove h.objs.length (delFieldH h1 rc "max_power") :=
                      HClosed_delField c1
                    obtain ⟨f3, l3, -⟩ := convGoH_frame fuel (delFieldH h1 rc "max_power")
                      (.val (.ref rc)) h.objs.length c2 (by simpa [hvalGE] using hrc)
                    constructor
                    · intro i hi
                      rw [f3 i hi, f2 i hi, f i hi]
                    · rw [l3, l2]
                      omega
      · rw [if_neg ht]
        exact ⟨fun i _ => rfl, le_refl _⟩

theorem enhanceItemH_frame (h : Heap) (cst : JSDate) (item : HVal) :
    (∀ i, i < h.objs.length → lookupH (enhanceItemH h cst item).1 i = lookupH h i)
    ∧ h.objs.length ≤ (enhanceItemH h cst item).1.objs.length := by
  cases item with
  | arr xs => exact ⟨fun i _ => rfl, le_refl _⟩
  | prim p => cases p <;> exact ⟨fun i _ => rfl, le_refl _⟩
  | ref r =>
      simp only [enhanceItemH]
      cases hg : getFieldH h r "relative_timestamp" with
      | none => exact ⟨fun i _ => rfl, le_refl _⟩
      | some v =>
          cases v with
          | ref r' => exact ⟨fun i _ => rfl, le_refl _⟩
          | arr xs => exact ⟨fun i _ => rfl, le_refl _⟩
          | prim pv =>
              cases pv with
              | nul => exact ⟨fun i _ => rfl, le_refl _⟩
              | str s => exact ⟨fun i _ => rfl, le_refl _⟩
              | bool b => exact ⟨fun i _ => rfl, le_refl _⟩
              | dateStr d => exact ⟨fun i _ => rfl, le_refl _⟩
              | num rel =>
                  dsimp only
                  have hal : ∀ i, i < h.objs.length →
                      lookupH (allocH h ((lookupH h r).getD .nil)).1 i = lookupH h i :=
                    fun i hi => lookupH_alloc_lt _ _ hi
                  have hallen : h.objs.length ≤
                      (allocH h ((lookupH h r).getD .nil)).1.objs.length := by
                    rw [allocH_len]; omega
                  cases cst with
                  | invalid => exact ⟨hal, hallen⟩
                  | valid ms =>
                      dsimp only
                      cases hf : formatDateToPythonISO (.valid (ms + jsTrunc (rel * 1000))) with
                      | none => exact ⟨hal, hallen⟩
                      | some ts =>
                          dsimp only
                          constructor
                          · intro i hi
                            rw [setFieldH_frame _ _ _ _ (by simp [allocH]; omega), hal i hi]
                          · rw [setFieldH_len]
                            exact hallen

theorem enhanceItemsH_frame : ∀ (cst : JSDate) (xs : HList) (h : Heap),
    (∀ i, i < h.objs.length → lookupH (enhanceItemsH h cst xs).1 i = lookupH h i)
    ∧ h.objs.length ≤ (enhanceItemsH h cst xs).1.objs.length
  | _, .nil, h => ⟨fun i _ => rfl, le_refl _⟩
  | cst, .cons it rest, h => by
      simp only [enhanceItemsH]
      obtain ⟨f1, l1⟩ := enhanceItemH_frame h cst it
      cases hstep : enhanceItemH h cst it with
      | mk h1 r1 =>
          rw [hstep] at f1 l1
          dsimp only at f1 l1
          cases r1 with
          | none => exact ⟨f1, l1⟩
          | some it' =>
              dsimp only
              obtain ⟨f2, l2⟩ := enhanceItemsH_frame cst rest h1
              cases hstep2 : enhanceItemsH h1 cst rest with
              | mk h2 r2 =>
                  rw [hstep2] at f2 l2
                  dsimp only at f2 l2
                  cases r2 with
                  | none =>
                      dsimp only
                      exact ⟨fun i hi => (f2 i (by omega)).trans (f1 i hi), by omega⟩
                  | some rest' =>
                      dsimp only
                      exact ⟨fun i hi => (f2 i (by omega)).trans (f1 i hi), by omega⟩

theorem enhanceTelH_frame (h : Heap) (tel : Option HVal) (cst : Option JSDate) :
    (∀ i, i < h.objs.length →
      lookupH (enhanceTelemetryWithTimestampsH h tel cst).1 i = lookupH h i)
    ∧ h.objs.length ≤ (enhanceTelemetryWithTimestampsH h tel cst).1.objs.length := by
  cases tel with
  | none => exact ⟨fun i _ => rfl, le_refl _⟩
  | some tv =>
      cases cst with
      | none => exact ⟨fun i _ => rfl, le_refl _⟩
      | some c =>
          simp only [enhanceTelemetryWithTimestampsH]
          by_cases ht : hvalTruthy tv = true
          · rw [if_pos ht]
            cases tv with
            | prim p => exact ⟨fun i _ => rfl, le_refl _⟩
            | arr xs =>
                dsimp only
                obtain ⟨f1, l1⟩ := enhanceItemsH_frame c xs h
                cases hstep : enhanceItemsH h c xs with
                | mk h1 r1 =>
                    rw [hstep] at f1 l1
                    dsimp only at f1 l1
                    cases r1 with
                    | none => exact ⟨f1, l1⟩
                    | some enh => exact ⟨f1, l1⟩
            | ref r =>
                dsimp only
                cases hg : getFieldH h r "telemetry" with
                | none => exact ⟨fun i _ => rfl, le_refl _⟩
                | some gv =>
                    cases gv with
                    | prim p => exact ⟨fun i _ => rfl, le_refl _⟩
                    | ref r' => exact ⟨fun i _ => rfl, le_refl _⟩
                    | arr xs =>
                        dsimp only
                        obtain ⟨f1, l1⟩ := enhanceItemsH_frame c xs h
                        cases hstep : enhanceItemsH h c xs with
                        | mk h1 r1 =>
                            rw [hstep] at f1 l1
                            dsimp only at f1 l1
                            cases r1 with
                            | none => exact ⟨f1, l1⟩
                            | some enh =>
                                dsimp only
                                by_cases hcu : hvalTruthy
                                    ((getFieldH h1 r "classHistoryUuid").getD (.prim .nul)) = true
                                · rw [if_pos hcu]
                                  constructor
                                  · intro i hi
                                    rw [lookupH_alloc_lt _ _ (by omega), f1 i hi]
                                  · rw [allocH_len]
                                    omega
                                · rw [if_neg hcu]
                                  constructor
                                  · intro i hi
                                    rw [lookupH_alloc_lt _ _ (by omega), f1 i hi]
                                  · rw [allocH_len]
                                    omega
          · rw [if_neg ht]
            exact ⟨fun i _ => rfl, le_refl _⟩

/-- C10: workout assembly never mutates its inputs.  In the heap
semantics, `assembleWorkoutH` leaves every pre-existing object —
booking, class snapshot, performance summary, heart-rate block,
equipment data and telemetry samples — exactly as it found it: the
heart-rate block is spread-copied before the `max_hr` write, equipment
data is deep-copied before the `max_power` deletion and metric-value
writes (the fresh copy is reference-closed, so the walk can never
reach an old object), and each telemetry sample is spread-copied
before its `timestamp` write. -/
theorem c10_assembleWorkout_never_mutates_inputs :
    ∀ (fuel : Nat) (h : Heap) (bookingR psR : Nat) (telemetry : Option HVal)
      (classUuid : Option String) (i : Nat), i < h.objs.length →
      lookupH ((assembleWorkoutH fuel h bookingR psR telemetry classUuid).1) i
        = lookupH h i := by
  intro fuel h bookingR psR telemetry classUuid i hi
  simp only [assembleWorkoutH]
  obtain ⟨f1, l1⟩ := enhanceHRH_frame h (getFieldH h psR "heart_rate") telemetry
  set q1 := enhanceHeartRateWithTelemetryH h (getFieldH h psR "heart_rate") telemetry with hq1
  obtain ⟨f2, l2⟩ := filterEquipmentDataH_frame fuel q1.1
    (optChainFieldH q1.1 (getFieldH q1.1 psR "equipment_data") "rower")
  cases hc2 : filterEquipmentDataH fuel q1.1
      (optChainFieldH q1.1 (getFieldH q1.1 psR "equipment_data") "rower") with
  | mk h2 r2 =>
      rw [hc2] at f2 l2
      dsimp only at f2 l2
      cases r2 with
      | none => exact (f2 i (by omega)).trans (f1 i hi)
      | some rowerV =>
          dsimp only
          obtain ⟨f3, l3⟩ := filterEquipmentDataH_frame fuel h2
            (optChainFieldH h2 (getFieldH h2 psR "equipment_data") "treadmill")
          cases hc3 : filterEquipmentDataH fuel h2
              (optChainFieldH h2 (getFieldH h2 psR "equipment_data") "treadmill") with
          | mk h3 r3 =>
              rw [hc3] at f3 l3
              dsimp only at f3 l3
              cases r3 with
              | none => exact (f3 i (by omega)).trans ((f2 i (by omega)).trans (f1 i hi))
              | some treadV =>
                  dsimp only
                  have f4 : ∀ j, j < h3.objs.length →
                      lookupH (allocH h3 (ocSpreadH h3 bookingR)).1 j = lookupH h3 j :=
                    fun j hj => lookupH_alloc_lt h3 _ hj
                  have l4 : h3.objs.length ≤
                      (allocH h3 (ocSpreadH h3 bookingR)).1.objs.length := by
                    rw [allocH_len]; omega
                  obtain ⟨f5, l5⟩ := enhanceTelH_frame (allocH h3 (ocSpreadH h3 bookingR)).1
                    telemetry (startsOfH (allocH h3 (ocSpreadH h3 bookingR)).1 bookingR)
                  cases hc5 : enhanceTelemetryWithTimestampsH
                      (allocH h3 (ocSpreadH h3 bookingR)).1 telemetry
                      (startsOfH (allocH h3 (ocSpreadH h3 bookingR)).1 bookingR) with
                  | mk h5 r5 =>
                      rw [hc5] at f5 l5
                      dsimp only at f5 l5
                      have hcomp : lookupH h5 i = lookupH h i := by
                        rw [f5 i (by omega), f4 i (by omega), f3 i (by omega),
                          f2 i (by omega), f1 i hi]
                      cases r5 with
                      | none => exact hcomp
                      | some telV =>
                          dsimp only
                          rw [lookupH_alloc_lt h5 _ (by omega)]
                          exact hcomp

/-- C10 witness: on `c10heap` the assembly leaves the input rower (5)
untouched (by the theorem), while the writes demonstrably happened on
the fresh copies: the rower copy (9) has `max_power` deleted and the
metric value converted, and the heart-rate copy (8) carries the
`max_hr` correction. -/
theorem c10_witness :
    lookupH ((assembleWorkoutH 30 c10heap 0 2 (some (.ref 6)) none).1) 5
      = lookupH c10heap 5
    ∧ lookupH ((assembleWorkoutH 30 c10heap 0 2 (some (.ref 6)) none).1) 9
      = some (.fcons "metric_value" (.prim (.str "5.0")) .nil)
    ∧ lookupH ((assembleWorkoutH 30 c10heap 0 2 (some (.ref 6)) none).1) 8
      = some (.fcons "peak_hr" (.prim (.num 180))
          (.fcons "max_hr" (.prim (.num 190)) .nil)) :=
  ⟨c10_assembleWorkout_never_mutates_inputs 30 c10heap 0 2 (some (.ref 6)) none 5
      (by decide),
   by decide, by decide⟩
